import Mathlib

/-!
Compounder: the transaction execution core.

A shallow embedding of `compounder.go` (the retry controller `executeMessage`, the
callers `ClaimRewards` and `Compound`) and of `utils/chain_helper.go` (`SendMsg`, the
broadcast-and-confirm protocol), followed by the properties proved about them.

Conventions of the embedding

* A Go `error` is represented by its text; `nil` is `none`.
* A Go `string` is a Lean `String`; `strings.Contains` is substring search. Go searches
  bytes and this searches characters, which agrees on UTF-8 text for the ASCII needles of
  the source.
* Go `int` and `int64` are `Int`, `uint32` and `uint64` are `Nat`. The only integer
  arithmetic of the source is `attempt + 1`, taken when `attempt` is below the configured
  maximum, so that it cannot wrap.
* `executeMessage` takes the `float64` operations it uses as the fields of `Float64Ops`.
  The operations of the program are `binary64`: IEEE 754 double precision with rounding
  to nearest, ties to even, on values `m * 2^e`. The Go specification leaves the result of
  converting to an integer type a `float64` that the type cannot represent to the
  implementation; that result is a field of `Platform`.
* The chain node is an environment: every remote call takes its answer from an argument.
* A function of the source that recurses without a structural bound takes a `fuel`
  argument; running out of fuel is the value `none`, and the theorems show that it does
  not happen.
-/

namespace Compounder

/-! ## Strings -/

/-- Whether the character list `p` is an initial segment of `s`. -/
def startsWith : List Char → List Char → Bool
  | _, [] => true
  | [], _ :: _ => false
  | c :: s, d :: p => c == d && startsWith s p

/-- Whether `sub` occurs in `s` as a contiguous block. -/
def containsChars : List Char → List Char → Bool
  | [], sub => sub.isEmpty
  | c :: s, sub => startsWith (c :: s) sub || containsChars s sub

/-- Go `strings.Contains(s, substr)`. -/
def stringsContains (s substr : String) : Bool :=
  containsChars s.data substr.data

/-! ## Data model (`utils/chain_helper.go`, `compounder.go`) -/

/-- The fields of `sdk.TxResponse` that the repository reads. -/
structure TxResponse where
  Height : Int
  TxHash : String
  Code : Nat
  RawLog : String
deriving DecidableEq

/-- `StakeMsg` of `compounder.go`. -/
structure StakeMsg where
  Share : Nat
  Validator : String
deriving DecidableEq

/-- The JSON document sent to the contract: `msgData` of `ClaimRewards` and of `Compound`. -/
inductive ContractCall
  | claim_rewards
  | stake (stake_msgs : List StakeMsg)
deriving DecidableEq

/-- `wasmtypes.MsgExecuteContract` as the repository fills it. -/
structure MsgExecuteContract where
  Sender : String
  Contract : String
  Msg : ContractCall
  Funds : List (String × Int)
deriving DecidableEq

/-- `KeyringRecord`: the key name and the address that `GetAddressStr` renders. The record
is one whose address derives without error, which `NewCompounder` has exercised by logging
the address before any operation runs. -/
structure KeyringRecord where
  Name : String
  Address : String
deriving DecidableEq

/-- `SendMsgOptions` of `utils/chain_helper.go`. -/
structure SendMsgOptions where
  Messages : List MsgExecuteContract
  SignerRecord : KeyringRecord
  GasLimit : Nat
  Fee : Int
deriving DecidableEq

/-- What `SendMsg` returns: `(*sdk.TxResponse, error)`. -/
abbrev SendResult := Option TxResponse × Option String

/-- The `float64` operations used by `executeMessage`: the conversions `float64(x)` from
`int64` and from `uint64`, the product, `math.Ceil`, and the conversions `int64(f)` and
`uint64(f)`. -/
structure Float64Ops (F : Type) where
  ofInt64 : Int → F
  ofUint64 : Nat → F
  mul : F → F → F
  ceil : F → F
  toInt64 : F → Int
  toUint64 : F → Nat

/-- The variables of `config/config.go` that `executeMessage`, `ClaimRewards` and
`Compound` read. -/
structure Config (F : Type) where
  CompounderContractAddress : String
  CompounderGasMultiplier : F
  CompounderGasMaxAttempts : Int
  CompounderGasLimit : Nat
  CompounderFeeInitial : Int
  CsvPath : String

/-! ## The escalation controller (`compounder.go`, `executeMessage`) -/

/-- The expression `int64(math.Ceil(float64(options.Fee) * config.CompounderGasMultiplier))`. -/
def escalatedFee {F : Type} (fl : Float64Ops F) (cfg : Config F) (fee : Int) : Int :=
  fl.toInt64 (fl.ceil (fl.mul (fl.ofInt64 fee) cfg.CompounderGasMultiplier))

/-- The expression
`uint64(math.Ceil(float64(options.GasLimit) * config.CompounderGasMultiplier))`. -/
def escalatedGasLimit {F : Type} (fl : Float64Ops F) (cfg : Config F) (gasLimit : Nat) : Nat :=
  fl.toUint64 (fl.ceil (fl.mul (fl.ofUint64 gasLimit) cfg.CompounderGasMultiplier))

/-- What one activation of `executeMessage` hands back: the triple
`(int64, string, error)`, or the nil dereference of `txResp.Code` when `SendMsg` gave
neither a response nor an error. -/
inductive ExecReturn
  | ret (height : Int) (txHash : String) (err : Option String)
  | nilDeref
deriving DecidableEq

/-- A run of `executeMessage`: the `SendMsg` calls it made, in order, each with the
options passed and the attempt number of the activation that made it, and the value
returned (`none`: the fuel ran out before the run ended). -/
structure ExecRun where
  calls : List (SendMsgOptions × Int)
  ret : Option ExecReturn
deriving DecidableEq

/-- `Compounder.executeMessage`. `send k options` is what the `k`-th call of `SendMsg`
(counted from 0) returns when given `options`; `idx` is the number of the next call. The
log lines of the source are left out. -/
def executeMessage {F : Type} (fl : Float64Ops F) (cfg : Config F)
    (send : Nat → SendMsgOptions → SendResult) :
    Nat → Nat → SendMsgOptions → Int → ExecRun
  | 0, _, _, _ => { calls := [], ret := none }
  | fuel + 1, idx, options, attempt =>
    match send idx options with
    | (_, some text) =>
      if stringsContains text "insufficient fee" then
        if attempt ≥ cfg.CompounderGasMaxAttempts then
          { calls := [(options, attempt)], ret := some (.ret 0 "" (some text)) }
        else
          let newOptions := { options with Fee := escalatedFee fl cfg options.Fee }
          let newAttempt := attempt + 1
          let rest := executeMessage fl cfg send fuel (idx + 1) newOptions newAttempt
          { calls := (options, attempt) :: rest.calls, ret := rest.ret }
      else
        { calls := [(options, attempt)], ret := some (.ret 0 "" (some text)) }
    | (some txResp, none) =>
      if txResp.Code ≠ 0 then
        let text := txResp.RawLog
        if stringsContains text "out of gas" then
          if attempt ≥ cfg.CompounderGasMaxAttempts then
            { calls := [(options, attempt)],
              ret := some (.ret txResp.Height txResp.TxHash (some text)) }
          else
            let newOptions :=
              { options with GasLimit := escalatedGasLimit fl cfg options.GasLimit }
            let newAttempt := attempt + 1
            let rest := executeMessage fl cfg send fuel (idx + 1) newOptions newAttempt
            { calls := (options, attempt) :: rest.calls, ret := rest.ret }
        else
          { calls := [(options, attempt)], ret := some (.ret 0 "" (some text)) }
      else
        { calls := [(options, attempt)],
          ret := some (.ret txResp.Height txResp.TxHash none) }
    | (none, none) => { calls := [(options, attempt)], ret := some .nilDeref }

/-! ## `float64` (IEEE 754 binary64) -/

/-- A `float64` value: a finite value `m * 2^e` with its sign (`neg` for the negative
ones, zero included), an infinity, or a NaN. The finite values of `float64` are those that
can be written with `m < 2^53` and `-1074 ≤ e ≤ 971`; the operations below return such
values, not always written in that way. -/
inductive Float64
  | finite (neg : Bool) (m : Nat) (e : Int)
  | inf (neg : Bool)
  | nan
deriving DecidableEq

/-- The number of binary digits of `n`, with `fuel` halvings allowed. -/
def bitLengthAux : Nat → Nat → Nat
  | 0, _ => 0
  | fuel + 1, n => if n = 0 then 0 else bitLengthAux fuel (n / 2) + 1

/-- The number of binary digits of `n` (0 for 0). -/
def bitLength (n : Nat) : Nat := bitLengthAux n n

/-- The quotient of `m` by `2^shift`, for `shift ≥ 1`, rounded to the nearest integer, a
tie going to the even one. -/
def roundShift (m shift : Nat) : Nat :=
  let quo := m / 2 ^ shift
  let rem := m % 2 ^ shift
  let half := 2 ^ (shift - 1)
  if rem > half ∨ (rem = half ∧ quo % 2 = 1) then quo + 1 else quo

/-- The `float64` nearest to the exact value `m * 2^e` with the given sign, ties to even.
`q` is the exponent of the last place of the result: 53 digits are kept, and no place
below `2^-1074` exists. When `q ≤ e` the value is a multiple of `2^q` and is kept as it
is; otherwise `m` is divided by `2^(q - e)` with rounding. A result of `2^1024` or more is
an infinity. -/
def Float64.round (neg : Bool) (m : Nat) (e : Int) : Float64 :=
  let q : Int := max (e + (bitLength m : Int) - 53) (-1074)
  let m2 : Nat := if q ≤ e then m else roundShift m (q - e).toNat
  let e2 : Int := if q ≤ e then e else q
  if e2 + (bitLength m2 : Int) > 1024 then .inf neg else .finite neg m2 e2

/-- The product `x * y` of two `float64` values. -/
def Float64.mul : Float64 → Float64 → Float64
  | .nan, _ => .nan
  | _, .nan => .nan
  | .inf n1, .inf n2 => .inf (xor n1 n2)
  | .inf n1, .finite n2 m _ => if m = 0 then .nan else .inf (xor n1 n2)
  | .finite n1 m _, .inf n2 => if m = 0 then .nan else .inf (xor n1 n2)
  | .finite n1 m1 e1, .finite n2 m2 e2 => Float64.round (xor n1 n2) (m1 * m2) (e1 + e2)

/-- Go `math.Ceil`: the least integer value not below `x`; infinities and NaN are
returned as they are. -/
def Float64.ceil : Float64 → Float64
  | .finite neg m e =>
    if e ≥ 0 then .finite neg m e
    else if neg then .finite true (m / 2 ^ (-e).toNat) 0
    else .finite false ((m + 2 ^ (-e).toNat - 1) / 2 ^ (-e).toNat) 0
  | x => x

/-- The integer part of a finite value, the fraction discarded (rounding toward zero);
`none` for an infinity or a NaN. -/
def Float64.truncate : Float64 → Option Int
  | .finite neg m e =>
    let mag : Nat := if e ≥ 0 then m * 2 ^ e.toNat else m / 2 ^ (-e).toNat
    some (if neg then -(mag : Int) else (mag : Int))
  | _ => none

/-- The rational number a finite value stands for (0 for an infinity or a NaN). -/
def Float64.toRat : Float64 → ℚ
  | .finite neg m e => (if neg then -1 else 1) * (m : ℚ) * (2 : ℚ) ^ e
  | _ => 0

/-- The conversion `float64(i)` of an `int64`. -/
def Float64.ofInt64 (i : Int) : Float64 := Float64.round (decide (i < 0)) i.natAbs 0

/-- The conversion `float64(n)` of a `uint64`. -/
def Float64.ofUint64 (n : Nat) : Float64 := Float64.round false n 0

/-- What the implementation gives when a `float64` is converted to an integer type that
cannot represent its integer part (or when it is an infinity or a NaN). -/
structure Platform where
  int64OfUnrepresentable : Float64 → Int
  uint64OfUnrepresentable : Float64 → Nat

/-- The conversion `int64(x)` of a `float64`. -/
def Float64.toInt64 (p : Platform) (x : Float64) : Int :=
  match x.truncate with
  | some v => if -2 ^ 63 ≤ v ∧ v < 2 ^ 63 then v else p.int64OfUnrepresentable x
  | none => p.int64OfUnrepresentable x

/-- The conversion `uint64(x)` of a `float64`. -/
def Float64.toUint64 (p : Platform) (x : Float64) : Nat :=
  match x.truncate with
  | some v => if 0 ≤ v ∧ v < 2 ^ 64 then v.toNat else p.uint64OfUnrepresentable x
  | none => p.uint64OfUnrepresentable x

/-- The `float64` operations of the program. -/
def binary64 (p : Platform) : Float64Ops Float64 where
  ofInt64 := Float64.ofInt64
  ofUint64 := Float64.ofUint64
  mul := Float64.mul
  ceil := Float64.ceil
  toInt64 := Float64.toInt64 p
  toUint64 := Float64.toUint64 p

/-- A `SendMsg` answer that `executeMessage` retries while attempts are left: an error
whose text contains "insufficient fee", or a response returned without error with a
non-zero code and a raw log that contains "out of gas". -/
def RetryableRejection (r : SendResult) : Prop :=
  (∃ resp text, r = (resp, some text) ∧ stringsContains text "insufficient fee" = true) ∨
  (∃ txResp, r = (some txResp, none) ∧ txResp.Code ≠ 0 ∧
    stringsContains txResp.RawLog "out of gas" = true)

/-! ## Broadcast and confirm (`utils/chain_helper.go`, `SendMsg`) -/

/-- Lines 106 to 138 of `SendMsg`: the transaction builder, the account query, `tx.Sign`
and the encoder are library calls, and their joint outcome is taken from the environment:
a panic (`MustGetAddress`, `GetAccountNumbers`), an error that `SendMsg` returns as
`(nil, err)`, or the signed and encoded transaction bytes. -/
inductive BuildResult
  | panicked
  | failed (err : String)
  | signed (txBytes : List Nat)
deriving DecidableEq

/-- `txTypes.GetTxResponse`: the field `TxResponse` may be nil. -/
structure GetTxResponse where
  TxResponse : Option TxResponse
deriving DecidableEq

/-- What one call of `txClient.GetTx` gives: `resp` (nil or not) and the error. -/
structure PollResult where
  resp : Option GetTxResponse
  err : Option String
deriving DecidableEq

/-- One wake-up of the `select` statement in the confirmation loop: the ticker case, with
what the poll made in that case receives, or the timer case. -/
inductive SelectEvent
  | tick (poll : PollResult)
  | timeout
deriving DecidableEq

/-- The environment of one `SendMsg` call. `broadcast` is `txClient.BroadcastTx`: an error,
or a response whose `TxResponse` field may be nil. `events` lists the wake-ups of the
`select` statement in the order in which they are taken. -/
structure SendEnv where
  build : SendMsgOptions → BuildResult
  broadcast : List Nat → Except String (Option TxResponse)
  events : List SelectEvent

/-- How a `SendMsg` call ends: it returns `(resp, err)`, it panics, or the `select`
statement is still blocked when the listed wake-ups are used up. -/
inductive SendOutcome
  | returned (resp : Option TxResponse) (err : Option String)
  | panicked
  | waiting
deriving DecidableEq

/-- A `SendMsg` call: the number of `BroadcastTx` calls, the number of `GetTx` polls, and
the way it ended. -/
structure SendRun where
  broadcasts : Nat
  polls : Nat
  outcome : SendOutcome
deriving DecidableEq

/-- The loop `for { select { case <-tick.C: ... case <-timeout.C: ... } }` of `SendMsg`,
started with `polls` polls already made. -/
def confirmLoop : List SelectEvent → Nat → SendRun
  | [], polls => { broadcasts := 1, polls := polls, outcome := .waiting }
  | .tick p :: rest, polls =>
    match p.resp with
    | some resp =>
      match resp.TxResponse with
      | some txResponse =>
        { broadcasts := 1, polls := polls + 1, outcome := .returned (some txResponse) none }
      | none => confirmLoop rest (polls + 1)
    | none => confirmLoop rest (polls + 1)
  | .timeout :: _, polls =>
    { broadcasts := 1, polls := polls,
      outcome := .returned none (some "create transaction timeout error") }

/-- `ChainClient.SendMsg`. -/
def SendMsg (env : SendEnv) (options : SendMsgOptions) : SendRun :=
  match env.build options with
  | .panicked => { broadcasts := 0, polls := 0, outcome := .panicked }
  | .failed err => { broadcasts := 0, polls := 0, outcome := .returned none (some err) }
  | .signed txBytes =>
    match env.broadcast txBytes with
    | .error err => { broadcasts := 1, polls := 0, outcome := .returned none (some err) }
    | .ok none => { broadcasts := 1, polls := 0, outcome := .panicked }
    | .ok (some txResponse) =>
      if txResponse.Code ≠ 0 then
        { broadcasts := 1, polls := 0,
          outcome := .returned none (some txResponse.RawLog) }
      else
        confirmLoop env.events 0

/-- Whether a poll carries a transaction result: `resp != nil && resp.TxResponse != nil`. -/
def PollResult.result (p : PollResult) : Option TxResponse :=
  match p.resp with
  | some resp => resp.TxResponse
  | none => none

/-! ## The operations (`compounder.go`, `ClaimRewards` and `Compound`) -/

/-- `strconv.ParseUint(s, 10, 64)` of the Go standard library, digit by digit from the
accumulated value `n`: a character outside `0`..`9` is a syntax error and a value of
`2^64` or more is a range error, both `none`. -/
def parseDigits : List Char → Nat → Option Nat
  | [], n => some n
  | c :: cs, n =>
    if '0' ≤ c ∧ c ≤ '9' then
      if n * 10 + (c.toNat - '0'.toNat) < 2 ^ 64 then
        parseDigits cs (n * 10 + (c.toNat - '0'.toNat))
      else none
    else none

/-- `strconv.ParseUint(s, 10, 64)`: the value, or `none` when it returns an error (the
empty string is a syntax error). -/
def ParseUint (s : String) : Option Nat :=
  match s.data with
  | [] => none
  | c :: cs => parseDigits (c :: cs) 0

/-- The body of the loop `for _, record := range records[1:]` of `Compound`, over the
records left, with `stakeMsgs` as accumulated so far. `none` is the runtime panic of an
index expression `record[0]` or `record[1]` that is out of range. -/
def stakeLoop : List (List String) → List StakeMsg → Option (List StakeMsg)
  | [], stakeMsgs => some stakeMsgs
  | record :: rest, stakeMsgs =>
    match record[0]? with
    | none => none
    | some validatorAddress =>
      match record[1]? with
      | none => none
      | some field =>
        match ParseUint field with
        | none => stakeLoop rest stakeMsgs
        | some share =>
          stakeLoop rest (stakeMsgs ++ [{ Share := share, Validator := validatorAddress }])

/-- Lines 113 to 128 of `Compound`: the slice expression `records[1:]`, which panics on a
list without elements, and the loop over it. `none` is a runtime panic. -/
def parseStakeMsgs (records : List (List String)) : Option (List StakeMsg) :=
  match records with
  | [] => none
  | _ :: rows => stakeLoop rows []

/-- The `LogError` calls of the same loop, over the records left: one message for every
row whose share does not parse, up to the end of the records or to the row on which an
index expression panics. -/
def stakeLoopErrors : List (List String) → List String
  | [] => []
  | record :: rest =>
    match record[0]? with
    | none => []
    | some _ =>
      match record[1]? with
      | none => []
      | some field =>
        match ParseUint field with
        | none => "Error parsing share from CSV" :: stakeLoopErrors rest
        | some _ => stakeLoopErrors rest

/-- The `LogError` calls of lines 113 to 128 of `Compound`. -/
def parseErrors (records : List (List String)) : List String :=
  match records with
  | [] => []
  | _ :: rows => stakeLoopErrors rows

/-- `sdk.Coins.AmountOf`: the amount held of `denom`, zero when the denomination is absent. -/
def AmountOf (coins : List (String × Int)) (denom : String) : Int :=
  match coins.find? (fun c => c.1 == denom) with
  | some c => c.2
  | none => 0

/-- The expression `balance.AmountOf("unibi").Sub(sdk.NewInt(1))` of `Compound`. -/
def stakeAmount (balance : List (String × Int)) : Int :=
  AmountOf balance "unibi" - 1

/-- `Compounder`: the signing account (the chain client is the environment). -/
structure CompounderState where
  Account : KeyringRecord

/-- The environment of one `Compound` call: the balance that `QueryAccountBalance` returns,
the error of `os.Open` (`none`: the file opens), what `reader.ReadAll` returns, and the
answers of the `SendMsg` calls. -/
structure CompoundEnv where
  balance : List (String × Int)
  openErr : Option String
  readAll : Except String (List (List String))
  send : Nat → SendMsgOptions → SendResult

/-- What an operation did: the messages it passed to `LogError`, in order, whether it
panicked, and the `executeMessage` run it started, if it came that far. -/
structure OperationRun where
  errors : List String
  panicked : Bool
  run : Option ExecRun
deriving DecidableEq

/-- The `SendMsg` calls an operation issued. -/
def OperationRun.calls (r : OperationRun) : List (SendMsgOptions × Int) :=
  match r.run with
  | some run => run.calls
  | none => []

/-- The options both operations build around a contract call. -/
def optionsFor {F : Type} (cfg : Config F) (compounder : CompounderState)
    (call : ContractCall) : SendMsgOptions :=
  { Messages := [{ Sender := compounder.Account.Address,
                   Contract := cfg.CompounderContractAddress,
                   Msg := call,
                   Funds := [] }],
    SignerRecord := compounder.Account,
    GasLimit := cfg.CompounderGasLimit,
    Fee := cfg.CompounderFeeInitial }

/-- The error `executeMessage` returned, if it returned one. -/
def ExecRun.err (run : ExecRun) : Option String :=
  match run.ret with
  | some (.ret _ _ err) => err
  | _ => none

/-- The tail common to both operations: run `executeMessage(options, 1)` and log its
error. A nil dereference inside `executeMessage` is a panic of the operation. -/
def finishOperation (run : ExecRun) : OperationRun :=
  { errors := if run.err.isSome then ["Error executing compound message"] else [],
    panicked := decide (run.ret = some .nilDeref),
    run := some run }

/-- `Compounder.ClaimRewards`. `json.Marshal` of a map of strings does not fail. -/
def ClaimRewards {F : Type} (fl : Float64Ops F) (cfg : Config F)
    (compounder : CompounderState) (send : Nat → SendMsgOptions → SendResult)
    (fuel : Nat) : OperationRun :=
  let options := optionsFor cfg compounder .claim_rewards
  finishOperation (executeMessage fl cfg send fuel 0 options 1)

/-- `Compounder.Compound`. `json.Marshal` of the stake messages does not fail. -/
def Compound {F : Type} (fl : Float64Ops F) (cfg : Config F)
    (compounder : CompounderState) (env : CompoundEnv) (fuel : Nat) : OperationRun :=
  if stakeAmount env.balance < 0 then
    { errors := ["Insufficient balance to stake"], panicked := false, run := none }
  else
    match env.openErr with
    | some _ => { errors := ["Error opening CSV file"], panicked := false, run := none }
    | none =>
      match env.readAll with
      | .error _ => { errors := ["Error reading CSV file"], panicked := false, run := none }
      | .ok records =>
        match parseStakeMsgs records with
        | none => { errors := parseErrors records, panicked := true, run := none }
        | some stakeMsgs =>
          let options := optionsFor cfg compounder (.stake stakeMsgs)
          let done := finishOperation (executeMessage fl cfg env.send fuel 0 options 1)
          { done with errors := parseErrors records ++ done.errors }

/-! ## Reference definitions and sample inputs -/

/-- The stake message a two-field row stands for, in the words of the specification:
the row `(validator, weight)` gives `{Validator: validator, Share: weight}` when the
weight parses as an unsigned base-10 64-bit integer, and nothing otherwise. -/
def stakeMsgOfRow (record : List String) : Option StakeMsg :=
  match record with
  | [validator, weight] =>
    (ParseUint weight).map (fun share => { Share := share, Validator := validator })
  | _ => none

/-- A platform. Its two results are arbitrary: no theorem depends on them. -/
def samplePlatform : Platform :=
  { int64OfUnrepresentable := fun _ => -2 ^ 63,
    uint64OfUnrepresentable := fun _ => 2 ^ 63 }

/-- The `float64` operations on `samplePlatform`. -/
def sampleOps : Float64Ops Float64 := binary64 samplePlatform

/-- The `float64` value 1.5. -/
def float64Three_halves : Float64 := .finite false 3 (-1)

/-- The `float64` value 1. -/
def float64One : Float64 := .finite false 1 0

/-- The `float64` nearest to 1.1, which `strconv.ParseFloat` gives for the text `1.1`:
`4953959590107546 * 2^-52`, a little above 1.1. -/
def float64ElevenTenths : Float64 := .finite false 4953959590107546 (-52)

/-- A configuration: multiplier 1.5, three attempts, gas limit 200000, initial fee 5001. -/
def sampleConfig : Config Float64 :=
  { CompounderContractAddress := "nibi1contract",
    CompounderGasMultiplier := float64Three_halves,
    CompounderGasMaxAttempts := 3,
    CompounderGasLimit := 200000,
    CompounderFeeInitial := 5001,
    CsvPath := "validators.csv" }

/-- `sampleConfig` with another multiplier. -/
def sampleConfigWith (multiplier : Float64) : Config Float64 :=
  { sampleConfig with CompounderGasMultiplier := multiplier }

/-- A compounder with a signing account. -/
def sampleCompounder : CompounderState :=
  { Account := { Name := "compounder", Address := "nibi1compounder" } }

/-- The options `ClaimRewards` builds under `sampleConfig`. -/
def sampleOptions : SendMsgOptions :=
  optionsFor sampleConfig sampleCompounder .claim_rewards

/-- A node that rejects every broadcast for its fee: `SendMsg` returns the error. -/
def underpriced : Nat → SendMsgOptions → SendResult :=
  fun _ _ => (none, some "insufficient fees; got: 5001unibi required: 25000unibi: insufficient fee")

/-- The response of a transaction that ran out of gas during execution. -/
def outOfGasResponse : TxResponse :=
  { Height := 120, TxHash := "A1B2", Code := 11,
    RawLog := "out of gas in location: wasm contract; gasWanted: 200000" }

/-- A node on which every transaction is included and runs out of gas. -/
def starved : Nat → SendMsgOptions → SendResult :=
  fun _ _ => (some outOfGasResponse, none)

/-- A node that refuses every broadcast for a reason the controller does not classify. -/
def unauthorized : Nat → SendMsgOptions → SendResult :=
  fun _ _ => (none, some "signature verification failed; unauthorized")

/-- The response of a transaction that was included and whose execution failed with an
insufficient-fee log. -/
def underpricedResponse : TxResponse :=
  { Height := 130, TxHash := "C3D4", Code := 13,
    RawLog := "insufficient fees; got: 5001unibi required: 25000unibi: insufficient fee" }

/-- A node on which every transaction is included and fails with an insufficient-fee log. -/
def underpricedOnExecution : Nat → SendMsgOptions → SendResult :=
  fun _ _ => (some underpricedResponse, none)

/-- The response of a transaction that succeeded. -/
def successResponse : TxResponse :=
  { Height := 140, TxHash := "E5F6", Code := 0, RawLog := "[]" }

/-- The acknowledgment of an accepted broadcast. -/
def acceptedResponse : TxResponse :=
  { Height := 0, TxHash := "E5F6", Code := 0, RawLog := "[]" }

/-- A poll that fails: the transaction is not found yet. -/
def notFound : PollResult :=
  { resp := none, err := some "tx not found: E5F6" }

/-- A poll that finds the transaction. -/
def found (t : TxResponse) : PollResult :=
  { resp := some { TxResponse := some t }, err := none }

/-- A `SendMsg` environment: signing succeeds, the broadcast gives `broadcast`, and the
`select` statement wakes up as `events` lists. -/
def sampleSendEnv (broadcast : Except String (Option TxResponse))
    (events : List SelectEvent) : SendEnv :=
  { build := fun _ => .signed [10, 20, 30],
    broadcast := fun _ => broadcast,
    events := events }

/-- A `Compound` environment with the given balance and CSV records, on a node that
accepts and executes every transaction. -/
def sampleCompoundEnv (unibi : Int) (records : List (List String)) : CompoundEnv :=
  { balance := [("unibi", unibi)],
    openErr := none,
    readAll := .ok records,
    send := fun _ _ => (some successResponse, none) }

/-! # Theorems -/

/-! ## Unfolding `executeMessage` one activation at a time -/

section Steps

variable {F : Type} (fl : Float64Ops F) (cfg : Config F)
  (send : Nat → SendMsgOptions → SendResult)

theorem exec_err_terminal (fuel idx : Nat) (options : SendMsgOptions) (attempt : Int)
    (resp : Option TxResponse) (text : String)
    (hsend : send idx options = (resp, some text))
    (hstop : stringsContains text "insufficient fee" = false ∨
      attempt ≥ cfg.CompounderGasMaxAttempts) :
    executeMessage fl cfg send (fuel + 1) idx options attempt =
      { calls := [(options, attempt)], ret := some (.ret 0 "" (some text)) } := by
  unfold executeMessage
  rw [hsend]
  rcases hstop with h | h
  · simp [h]
  · by_cases hc : stringsContains text "insufficient fee" = true
    · simp [hc, h]
    · simp [hc]

theorem exec_fee_retry (fuel idx : Nat) (options : SendMsgOptions) (attempt : Int)
    (resp : Option TxResponse) (text : String)
    (hsend : send idx options = (resp, some text))
    (hfee : stringsContains text "insufficient fee" = true)
    (hatt : attempt < cfg.CompounderGasMaxAttempts) :
    executeMessage fl cfg send (fuel + 1) idx options attempt =
      { calls := (options, attempt) ::
          (executeMessage fl cfg send fuel (idx + 1)
            { options with Fee := escalatedFee fl cfg options.Fee } (attempt + 1)).calls,
        ret := (executeMessage fl cfg send fuel (idx + 1)
            { options with Fee := escalatedFee fl cfg options.Fee } (attempt + 1)).ret } := by
  conv_lhs => unfold executeMessage
  rw [hsend]
  have h : ¬ attempt ≥ cfg.CompounderGasMaxAttempts := not_le.mpr hatt
  simp [hfee, h]

theorem exec_success (fuel idx : Nat) (options : SendMsgOptions) (attempt : Int)
    (txResp : TxResponse) (hsend : send idx options = (some txResp, none))
    (hcode : txResp.Code = 0) :
    executeMessage fl cfg send (fuel + 1) idx options attempt =
      { calls := [(options, attempt)],
        ret := some (.ret txResp.Height txResp.TxHash none) } := by
  unfold executeMessage
  rw [hsend]
  simp [hcode]

theorem exec_code_terminal (fuel idx : Nat) (options : SendMsgOptions) (attempt : Int)
    (txResp : TxResponse) (hsend : send idx options = (some txResp, none))
    (hcode : txResp.Code ≠ 0)
    (hgas : stringsContains txResp.RawLog "out of gas" = false) :
    executeMessage fl cfg send (fuel + 1) idx options attempt =
      { calls := [(options, attempt)], ret := some (.ret 0 "" (some txResp.RawLog)) } := by
  unfold executeMessage
  rw [hsend]
  simp [hcode, hgas]

theorem exec_gas_terminal (fuel idx : Nat) (options : SendMsgOptions) (attempt : Int)
    (txResp : TxResponse) (hsend : send idx options = (some txResp, none))
    (hcode : txResp.Code ≠ 0)
    (hgas : stringsContains txResp.RawLog "out of gas" = true)
    (hatt : attempt ≥ cfg.CompounderGasMaxAttempts) :
    executeMessage fl cfg send (fuel + 1) idx options attempt =
      { calls := [(options, attempt)],
        ret := some (.ret txResp.Height txResp.TxHash (some txResp.RawLog)) } := by
  unfold executeMessage
  rw [hsend]
  simp [hcode, hgas, hatt]

theorem exec_gas_retry (fuel idx : Nat) (options : SendMsgOptions) (attempt : Int)
    (txResp : TxResponse) (hsend : send idx options = (some txResp, none))
    (hcode : txResp.Code ≠ 0)
    (hgas : stringsContains txResp.RawLog "out of gas" = true)
    (hatt : attempt < cfg.CompounderGasMaxAttempts) :
    executeMessage fl cfg send (fuel + 1) idx options attempt =
      { calls := (options, attempt) ::
          (executeMessage fl cfg send fuel (idx + 1)
            { options with GasLimit := escalatedGasLimit fl cfg options.GasLimit }
            (attempt + 1)).calls,
        ret := (executeMessage fl cfg send fuel (idx + 1)
            { options with GasLimit := escalatedGasLimit fl cfg options.GasLimit }
            (attempt + 1)).ret } := by
  conv_lhs => unfold executeMessage
  rw [hsend]
  have h : ¬ attempt ≥ cfg.CompounderGasMaxAttempts := not_le.mpr hatt
  simp [hcode, hgas, h]

theorem exec_nil (fuel idx : Nat) (options : SendMsgOptions) (attempt : Int)
    (hsend : send idx options = (none, none)) :
    executeMessage fl cfg send (fuel + 1) idx options attempt =
      { calls := [(options, attempt)], ret := some .nilDeref } := by
  unfold executeMessage
  rw [hsend]

/-- One activation either ends the run with a single call, or it is a retry: the attempt
is below the maximum and the run continues with the next call number, escalated options
and the next attempt number. -/
theorem exec_step (fuel idx : Nat) (options : SendMsgOptions) (attempt : Int) :
    (∃ r, executeMessage fl cfg send (fuel + 1) idx options attempt =
        { calls := [(options, attempt)], ret := some r }) ∨
    (attempt < cfg.CompounderGasMaxAttempts ∧ ∃ newOptions,
      executeMessage fl cfg send (fuel + 1) idx options attempt =
        { calls := (options, attempt) ::
            (executeMessage fl cfg send fuel (idx + 1) newOptions (attempt + 1)).calls,
          ret := (executeMessage fl cfg send fuel (idx + 1) newOptions (attempt + 1)).ret }) := by
  rcases hsend : send idx options with ⟨resp, err⟩
  cases err with
  | some text =>
    by_cases hfee : stringsContains text "insufficient fee" = true
    · by_cases hatt : attempt < cfg.CompounderGasMaxAttempts
      · exact Or.inr ⟨hatt, _, exec_fee_retry fl cfg send fuel idx options attempt resp text
          hsend hfee hatt⟩
      · exact Or.inl ⟨_, exec_err_terminal fl cfg send fuel idx options attempt resp text
          hsend (Or.inr (not_lt.mp hatt))⟩
    · exact Or.inl ⟨_, exec_err_terminal fl cfg send fuel idx options attempt resp text
        hsend (Or.inl (by simpa using hfee))⟩
  | none =>
    cases resp with
    | none => exact Or.inl ⟨_, exec_nil fl cfg send fuel idx options attempt hsend⟩
    | some txResp =>
      by_cases hcode : txResp.Code = 0
      · exact Or.inl ⟨_, exec_success fl cfg send fuel idx options attempt txResp hsend hcode⟩
      · by_cases hgas : stringsContains txResp.RawLog "out of gas" = true
        · by_cases hatt : attempt < cfg.CompounderGasMaxAttempts
          · exact Or.inr ⟨hatt, _, exec_gas_retry fl cfg send fuel idx options attempt txResp
              hsend hcode hgas hatt⟩
          · exact Or.inl ⟨_, exec_gas_terminal fl cfg send fuel idx options attempt txResp
              hsend hcode hgas (not_lt.mp hatt)⟩
        · exact Or.inl ⟨_, exec_code_terminal fl cfg send fuel idx options attempt txResp
            hsend hcode (by simpa using hgas)⟩

end Steps

/-! ## Runs of `executeMessage` -/

section Runs

variable {F : Type} (fl : Float64Ops F) (cfg : Config F)
  (send : Nat → SendMsgOptions → SendResult)

/-- With more fuel than attempts left, the run returns, after at least one call and at
most one call per attempt left. -/
theorem exec_returns : ∀ (fuel idx : Nat) (options : SendMsgOptions) (attempt : Int),
    (cfg.CompounderGasMaxAttempts - attempt).toNat < fuel →
    (∃ r, (executeMessage fl cfg send fuel idx options attempt).ret = some r) ∧
    1 ≤ (executeMessage fl cfg send fuel idx options attempt).calls.length ∧
    (executeMessage fl cfg send fuel idx options attempt).calls.length ≤
      (cfg.CompounderGasMaxAttempts - attempt).toNat + 1 := by
  intro fuel
  induction fuel with
  | zero => intro idx options attempt h; omega
  | succ fuel ih =>
    intro idx options attempt h
    rcases exec_step fl cfg send fuel idx options attempt with ⟨r, hr⟩ | ⟨hatt, o, hr⟩
    · rw [hr]; exact ⟨⟨r, rfl⟩, by simp, by simp⟩
    · have h2 : (cfg.CompounderGasMaxAttempts - (attempt + 1)).toNat < fuel := by omega
      obtain ⟨hret, h1, hlen⟩ := ih (idx + 1) o (attempt + 1) h2
      rw [hr]
      refine ⟨hret, by simp, ?_⟩
      simp only [List.length_cons]
      omega

/-- Fuel beyond the attempts left does not change the run. -/
theorem exec_fuel_irrelevant : ∀ (fuel fuel2 idx : Nat) (options : SendMsgOptions)
    (attempt : Int),
    (cfg.CompounderGasMaxAttempts - attempt).toNat < fuel →
    (cfg.CompounderGasMaxAttempts - attempt).toNat < fuel2 →
    executeMessage fl cfg send fuel idx options attempt =
      executeMessage fl cfg send fuel2 idx options attempt := by
  intro fuel
  induction fuel with
  | zero => intro fuel2 idx options attempt h; omega
  | succ fuel ih =>
    intro fuel2 idx options attempt h h2
    cases fuel2 with
    | zero => omega
    | succ fuel2 =>
      rcases hsend : send idx options with ⟨resp, err⟩
      cases err with
      | some text =>
        by_cases hfee : stringsContains text "insufficient fee" = true
        · by_cases hatt : attempt < cfg.CompounderGasMaxAttempts
          · rw [exec_fee_retry fl cfg send fuel idx options attempt resp text hsend hfee hatt,
              exec_fee_retry fl cfg send fuel2 idx options attempt resp text hsend hfee hatt,
              ih fuel2 (idx + 1) _ (attempt + 1) (by omega) (by omega)]
          · rw [exec_err_terminal fl cfg send fuel idx options attempt resp text hsend
                (Or.inr (not_lt.mp hatt)),
              exec_err_terminal fl cfg send fuel2 idx options attempt resp text hsend
                (Or.inr (not_lt.mp hatt))]
        · rw [exec_err_terminal fl cfg send fuel idx options attempt resp text hsend
              (Or.inl (by simpa using hfee)),
            exec_err_terminal fl cfg send fuel2 idx options attempt resp text hsend
              (Or.inl (by simpa using hfee))]
      | none =>
        cases resp with
        | none =>
          rw [exec_nil fl cfg send fuel idx options attempt hsend,
            exec_nil fl cfg send fuel2 idx options attempt hsend]
        | some txResp =>
          by_cases hcode : txResp.Code = 0
          · rw [exec_success fl cfg send fuel idx options attempt txResp hsend hcode,
              exec_success fl cfg send fuel2 idx options attempt txResp hsend hcode]
          · by_cases hgas : stringsContains txResp.RawLog "out of gas" = true
            · by_cases hatt : attempt < cfg.CompounderGasMaxAttempts
              · rw [exec_gas_retry fl cfg send fuel idx options attempt txResp hsend hcode
                    hgas hatt,
                  exec_gas_retry fl cfg send fuel2 idx options attempt txResp hsend hcode
                    hgas hatt,
                  ih fuel2 (idx + 1) _ (attempt + 1) (by omega) (by omega)]
              · rw [exec_gas_terminal fl cfg send fuel idx options attempt txResp hsend hcode
                    hgas (not_lt.mp hatt),
                  exec_gas_terminal fl cfg send fuel2 idx options attempt txResp hsend hcode
                    hgas (not_lt.mp hatt)]
            · rw [exec_code_terminal fl cfg send fuel idx options attempt txResp hsend hcode
                  (by simpa using hgas),
                exec_code_terminal fl cfg send fuel2 idx options attempt txResp hsend hcode
                  (by simpa using hgas)]

/-- The call at position `i` of a run is made by the activation with attempt number
`attempt + i`, and every activation after the first has an attempt number of at most the
maximum. -/
theorem exec_attempts : ∀ (fuel idx : Nat) (options : SendMsgOptions) (attempt : Int)
    (i : Nat) (o : SendMsgOptions) (a : Int),
    (executeMessage fl cfg send fuel idx options attempt).calls[i]? = some (o, a) →
    a = attempt + i ∧ (i = 0 ∨ a ≤ cfg.CompounderGasMaxAttempts) := by
  intro fuel
  induction fuel with
  | zero => intro idx options attempt i o a h; simp [executeMessage] at h
  | succ fuel ih =>
    intro idx options attempt i o a h
    rcases exec_step fl cfg send fuel idx options attempt with ⟨r, hr⟩ | ⟨hatt, o2, hr⟩
    · rw [hr] at h
      cases i with
      | zero => simp at h; exact ⟨by simp [h.2], Or.inl rfl⟩
      | succ j => simp at h
    · rw [hr] at h
      cases i with
      | zero => simp at h; exact ⟨by simp [h.2], Or.inl rfl⟩
      | succ j =>
        simp only [List.getElem?_cons_succ] at h
        obtain ⟨h1, h2⟩ := ih (idx + 1) o2 (attempt + 1) j o a h
        refine ⟨by rw [h1]; push_cast; ring, Or.inr ?_⟩
        rcases h2 with h2 | h2
        · subst h2; rw [h1]; simp; omega
        · exact h2

/-- A retryable rejection of an activation whose attempt number has reached the maximum
ends the run: that call is the last one and the run returns an error. -/
theorem exec_last_attempt : ∀ (fuel idx : Nat) (options : SendMsgOptions) (attempt : Int)
    (i : Nat) (o : SendMsgOptions) (a : Int),
    (executeMessage fl cfg send fuel idx options attempt).calls[i]? = some (o, a) →
    a ≥ cfg.CompounderGasMaxAttempts →
    RetryableRejection (send (idx + i) o) →
    (executeMessage fl cfg send fuel idx options attempt).calls.length = i + 1 ∧
    ∃ height txHash text,
      (executeMessage fl cfg send fuel idx options attempt).ret =
        some (.ret height txHash (some text)) := by
  intro fuel
  induction fuel with
  | zero => intro idx options attempt i o a h; simp [executeMessage] at h
  | succ fuel ih =>
    intro idx options attempt i o a h ha hrej
    cases i with
    | zero =>
      have ho : o = options ∧ a = attempt := by
        rcases exec_step fl cfg send fuel idx options attempt with ⟨r, hr⟩ | ⟨_, o2, hr⟩ <;>
          (rw [hr] at h; simp at h; exact ⟨h.1.symm, h.2.symm⟩)
      obtain ⟨rfl, rfl⟩ := ho
      simp only [Nat.add_zero] at hrej
      rcases hrej with ⟨resp, text, hs, _⟩ | ⟨txResp, hs, hcode, hgas⟩
      · rw [exec_err_terminal fl cfg send fuel idx o a resp text hs (Or.inr ha)]
        exact ⟨rfl, 0, "", text, rfl⟩
      · rw [exec_gas_terminal fl cfg send fuel idx o a txResp hs hcode hgas ha]
        exact ⟨rfl, _, _, _, rfl⟩
    | succ j =>
      rcases exec_step fl cfg send fuel idx options attempt with ⟨r, hr⟩ | ⟨_, o2, hr⟩
      · rw [hr] at h; simp at h
      · rw [hr] at h ⊢
        simp only [List.getElem?_cons_succ] at h
        have hrej2 : RetryableRejection (send (idx + 1 + j) o) := by
          have : idx + 1 + j = idx + (j + 1) := by omega
          rw [this]; exact hrej
        obtain ⟨hlen, hret⟩ := ih (idx + 1) o2 (attempt + 1) j o a h ha hrej2
        exact ⟨by simp [hlen], hret⟩

end Runs

/-! ## `float64` arithmetic -/

/-- Rounding a quotient by `2^shift` moves the value by half a unit at most, and a value
halfway between two integers goes to the even one. -/
theorem roundShift_nearest (m shift : Nat) (hshift : 1 ≤ shift) :
    2 * (roundShift m shift * 2 ^ shift) ≤ 2 * m + 2 ^ shift ∧
    2 * m ≤ 2 * (roundShift m shift * 2 ^ shift) + 2 ^ shift ∧
    (2 * (m % 2 ^ shift) = 2 ^ shift → roundShift m shift % 2 = 0) := by
  have hd : 2 ^ shift = 2 * 2 ^ (shift - 1) := by
    rw [← pow_succ']
    congr 1
    omega
  have hdiv := Nat.div_add_mod m (2 ^ shift)
  have hmod := Nat.mod_lt m (Nat.pos_pow_of_pos shift (by norm_num) : 0 < 2 ^ shift)
  unfold roundShift
  simp only
  generalize 2 ^ (shift - 1) = half at hd ⊢
  generalize m / 2 ^ shift = quo at hdiv ⊢
  generalize m % 2 ^ shift = rem at hdiv hmod ⊢
  generalize 2 ^ shift = d at hd hdiv hmod ⊢
  have hcomm : d * quo = quo * d := Nat.mul_comm _ _
  split
  · rename_i hup
    rw [Nat.add_mul, Nat.one_mul]
    refine ⟨by omega, by omega, fun hhalf => ?_⟩
    rcases hup with hup | ⟨_, hodd⟩
    · omega
    · omega
  · rename_i hup
    refine ⟨by omega, by omega, fun hhalf => ?_⟩
    have h1 : ¬ (rem = half ∧ quo % 2 = 1) := fun h => hup (Or.inr h)
    have h2 : rem = half := by omega
    have h3 : ¬ quo % 2 = 1 := fun h => h1 ⟨h2, h⟩
    omega

theorem bitLengthAux_le : ∀ (fuel n k : Nat), n < 2 ^ k → bitLengthAux fuel n ≤ k := by
  intro fuel
  induction fuel with
  | zero => intro n k _; simp [bitLengthAux]
  | succ fuel ih =>
    intro n k h
    unfold bitLengthAux
    split
    · omega
    · rename_i hn
      cases k with
      | zero => simp at h; omega
      | succ k =>
        have h2 : n / 2 < 2 ^ k := by
          rw [Nat.div_lt_iff_lt_mul (by norm_num)]
          rw [pow_succ] at h
          exact h
        have := ih (n / 2) k h2
        omega

theorem bitLength_le (n k : Nat) (h : n < 2 ^ k) : bitLength n ≤ k :=
  bitLengthAux_le n n k h

theorem round_exact (neg : Bool) (m : Nat) (e : Int) (hm : m < 2 ^ 53)
    (he : -1074 ≤ e) (he2 : e ≤ 971) : Float64.round neg m e = .finite neg m e := by
  have hb := bitLength_le m 53 hm
  have hq : max (e + (bitLength m : Int) - 53) (-1074) ≤ e := by
    apply max_le <;> omega
  unfold Float64.round
  simp only [hq, if_true]
  have : ¬ (e + (bitLength m : Int) > 1024) := by omega
  simp [this]

theorem truncate_ceil (neg : Bool) (m : Nat) (e : Int) :
    (Float64.ceil (.finite neg m e)).truncate = some ⌈(Float64.finite neg m e).toRat⌉ := by
  by_cases he : e ≥ 0
  · obtain ⟨k, rfl⟩ := Int.eq_ofNat_of_zero_le he
    have hv : (Float64.finite neg m (k : Int)).toRat =
        (((if neg then -((m * 2 ^ k : Nat) : Int) else ((m * 2 ^ k : Nat) : Int)) : Int) : ℚ) := by
      cases neg <;> simp [Float64.toRat]
    rw [hv, Int.ceil_intCast]
    simp [Float64.ceil, Float64.truncate]
  · have hk : e = -(((-e).toNat : Nat) : Int) := by omega
    generalize (-e).toNat = k at hk
    subst hk
    have hd : (0 : ℚ) < ((2 ^ k : Nat) : ℚ) := by positivity
    cases neg with
    | true =>
      have hv : (Float64.finite true m (-(k : Int))).toRat =
          -(((m : Int) : ℚ) / ((2 ^ k : Nat) : ℚ)) := by
        simp [Float64.toRat, zpow_neg, div_eq_mul_inv]
      rw [hv, Int.ceil_neg, Rat.floor_intCast_div_natCast]
      simp [Float64.ceil, Float64.truncate, he]
    | false =>
      have hv : (Float64.finite false m (-(k : Int))).toRat =
          ((m : Int) : ℚ) / ((2 ^ k : Nat) : ℚ) := by
        simp [Float64.toRat, zpow_neg, div_eq_mul_inv]
      have hc : ⌈((m : Int) : ℚ) / ((2 ^ k : Nat) : ℚ)⌉ =
          (((m + 2 ^ k - 1) / 2 ^ k : Nat) : Int) := by
        rw [Int.ceil_eq_iff]
        have hpos : 0 < 2 ^ k := by positivity
        have h1 := Nat.div_add_mod (m + 2 ^ k - 1) (2 ^ k)
        have h2 := Nat.mod_lt (m + 2 ^ k - 1) hpos
        generalize (m + 2 ^ k - 1) / 2 ^ k = c at *
        generalize (m + 2 ^ k - 1) % 2 ^ k = r at *
        generalize hdd : 2 ^ k = d at *
        have h1q : (d : ℚ) * c + r = m + d - 1 := by
          have : d * c + r + 1 = m + d := by omega
          have := congrArg (fun x : Nat => (x : ℚ)) this
          push_cast at this
          linarith
        have h2q : (r : ℚ) + 1 ≤ d := by exact_mod_cast h2
        have hr0 : (0 : ℚ) ≤ r := by positivity
        constructor
        · rw [lt_div_iff₀ hd]
          push_cast
          nlinarith
        · rw [div_le_iff₀ hd]
          push_cast
          nlinarith
      rw [hv, hc]
      simp [Float64.ceil, Float64.truncate, he]

theorem lt_two_pow_bitLengthAux : ∀ (fuel n : Nat), n ≤ fuel → n < 2 ^ bitLengthAux fuel n := by
  intro fuel
  induction fuel with
  | zero => intro n h; simp [bitLengthAux]; omega
  | succ fuel ih =>
    intro n h
    unfold bitLengthAux
    split
    · omega
    · have h2 := ih (n / 2) (by omega)
      rw [pow_succ]
      omega

theorem lt_two_pow_bitLength (n : Nat) : n < 2 ^ bitLength n :=
  lt_two_pow_bitLengthAux n n (le_refl n)

/-- A finite result of `Float64.round` has the sign asked for, is a `float64` (`m2` is at
most `2^53`, where `2^53 * 2^e2` is the value `2^52 * 2^(e2 + 1)`, and `e2` is at least
`-1074`), and lies within half a unit of its last place `2^e2` of the exact value. -/
theorem round_finite_near (neg neg2 : Bool) (m m2 : Nat) (e e2 : Int)
    (h : Float64.round neg m e = .finite neg2 m2 e2) :
    neg2 = neg ∧ m2 ≤ 2 ^ 53 ∧ -1074 ≤ e2 ∧
    2 * |(m2 : ℚ) * (2 : ℚ) ^ e2 - (m : ℚ) * (2 : ℚ) ^ e| ≤ (2 : ℚ) ^ e2 := by
  unfold Float64.round at h
  simp only at h
  have hbl := lt_two_pow_bitLength m
  have key : ∀ (mm : Nat) (ee : Int),
      (if ee + (bitLength mm : Int) > 1024 then Float64.inf neg else Float64.finite neg mm ee) =
        Float64.finite neg2 m2 e2 → neg = neg2 ∧ mm = m2 ∧ ee = e2 := by
    intro mm ee hh
    split at hh
    · exact absurd hh (by simp)
    · simpa using hh
  obtain ⟨hneg, hm2, he2⟩ := key _ _ h
  by_cases hq : max (e + (bitLength m : Int) - 53) (-1074) ≤ e
  · simp only [hq, if_true] at hm2 he2
    subst hm2 he2
    have h1 : e + (bitLength m : Int) - 53 ≤ e := le_trans (le_max_left _ _) hq
    have h2 : (-1074 : Int) ≤ e := le_trans (le_max_right _ _) hq
    have h3 : bitLength m ≤ 53 := by omega
    have h4 : m < 2 ^ 53 := lt_of_lt_of_le hbl (Nat.pow_le_pow_right (by norm_num) h3)
    refine ⟨hneg.symm, le_of_lt h4, h2, ?_⟩
    simp
    positivity
  · simp only [hq, if_false] at hm2 he2
    have hlt : e < max (e + (bitLength m : Int) - 53) (-1074) := not_le.mp hq
    obtain ⟨s, hs⟩ : ∃ s : Nat, max (e + (bitLength m : Int) - 53) (-1074) = e + s :=
      ⟨(max (e + (bitLength m : Int) - 53) (-1074) - e).toNat, by omega⟩
    have hs1 : 1 ≤ s := by omega
    have hst : (max (e + (bitLength m : Int) - 53) (-1074) - e).toNat = s := by omega
    rw [hst] at hm2
    rw [hs] at he2
    have hbs : bitLength m ≤ 53 + s := by
      have := le_max_left (e + (bitLength m : Int) - 53) (-1074)
      omega
    have hlow : (-1074 : Int) ≤ e + s := by
      have := le_max_right (e + (bitLength m : Int) - 53) (-1074)
      omega
    obtain ⟨hn1, hn2, _⟩ := roundShift_nearest m s hs1
    rw [hm2] at hn1 hn2
    have hm53 : m2 ≤ 2 ^ 53 := by
      have hmlt : m < 2 ^ 53 * 2 ^ s := by
        rw [← pow_add]
        exact lt_of_lt_of_le hbl (Nat.pow_le_pow_right (by norm_num) hbs)
      have hpos : 0 < 2 ^ s := by positivity
      by_contra hcon
      have h5 : 2 ^ 53 + 1 ≤ m2 := by omega
      have h6 : (2 ^ 53 + 1) * 2 ^ s ≤ m2 * 2 ^ s := Nat.mul_le_mul_right _ h5
      have h7 : (2 ^ 53 + 1) * 2 ^ s = 2 ^ 53 * 2 ^ s + 2 ^ s := by ring
      omega
    refine ⟨hneg.symm, hm53, by omega, ?_⟩
    subst he2
    have hz : (2 : ℚ) ^ (e + (s : Int)) = (2 : ℚ) ^ e * (2 : ℚ) ^ s := by
      rw [zpow_add₀ (by norm_num), zpow_natCast]
    have hpe : (0 : ℚ) < (2 : ℚ) ^ e := by positivity
    have hq1 : (2 : ℚ) * ((m2 : ℚ) * (2 : ℚ) ^ s) ≤ 2 * m + (2 : ℚ) ^ s := by exact_mod_cast hn1
    have hq2 : (2 : ℚ) * m ≤ 2 * ((m2 : ℚ) * (2 : ℚ) ^ s) + (2 : ℚ) ^ s := by exact_mod_cast hn2
    rw [hz]
    have hfac : (m2 : ℚ) * ((2 : ℚ) ^ e * (2 : ℚ) ^ s) - (m : ℚ) * (2 : ℚ) ^ e =
        (2 : ℚ) ^ e * ((m2 : ℚ) * (2 : ℚ) ^ s - m) := by ring
    rw [hfac, abs_mul, abs_of_pos hpe]
    have habs : |(m2 : ℚ) * (2 : ℚ) ^ s - m| ≤ (2 : ℚ) ^ s / 2 :=
      abs_le.mpr ⟨by linarith, by linarith⟩
    have hmul := mul_le_mul_of_nonneg_left habs hpe.le
    linarith

/-- The value of a product of finite values computed without rounding, the first factor
being the conversion of an integer. -/
theorem toRat_signed_product (i : Int) (neg : Bool) (m : Nat) (e : Int) :
    (Float64.finite (xor (decide (i < 0)) neg) (i.natAbs * m) (0 + e)).toRat =
      (i : ℚ) * (Float64.finite neg m e).toRat := by
  have habs : ((i.natAbs : Nat) : ℚ) = if i < 0 then -(i : ℚ) else (i : ℚ) := by
    split
    · have h : ((i.natAbs : Nat) : Int) = -i := by omega
      rw [← Int.cast_natCast, h, Int.cast_neg]
    · have h : ((i.natAbs : Nat) : Int) = i := by omega
      rw [← Int.cast_natCast, h]
  by_cases hi : i < 0 <;> cases neg <;>
    simp [Float64.toRat, hi, habs] <;> ring

/-- The fee expression of the source without rounding: when the conversion of the fee and
its product by a finite multiplier `m * 2^e` are exact, and the ceiling of the product is
an `int64`, the expression is the ceiling of the product of the fee by the multiplier. -/
theorem escalatedFee_binary64_exact (p : Platform) (c : Config Float64) (fee : Int)
    (neg : Bool) (m : Nat) (e : Int)
    (hmult : c.CompounderGasMultiplier = .finite neg m e)
    (hfee : fee.natAbs < 2 ^ 53) (hprod : fee.natAbs * m < 2 ^ 53)
    (he : -1074 ≤ e) (he2 : e ≤ 971)
    (hlo : -2 ^ 63 ≤ ⌈(fee : ℚ) * c.CompounderGasMultiplier.toRat⌉)
    (hhi : ⌈(fee : ℚ) * c.CompounderGasMultiplier.toRat⌉ < 2 ^ 63) :
    escalatedFee (binary64 p) c fee = ⌈(fee : ℚ) * c.CompounderGasMultiplier.toRat⌉ := by
  have h1 : Float64.ofInt64 fee = .finite (decide (fee < 0)) fee.natAbs 0 :=
    round_exact _ _ 0 hfee (by norm_num) (by norm_num)
  have h2 : Float64.mul (.finite (decide (fee < 0)) fee.natAbs 0) (.finite neg m e) =
      .finite (xor (decide (fee < 0)) neg) (fee.natAbs * m) (0 + e) := by
    simp only [Float64.mul]
    exact round_exact _ _ _ hprod (by omega) (by omega)
  have h3 := truncate_ceil (xor (decide (fee < 0)) neg) (fee.natAbs * m) (0 + e)
  rw [toRat_signed_product] at h3
  rw [hmult] at hlo hhi ⊢
  simp only [escalatedFee, binary64, hmult, h1, h2, Float64.toInt64, h3]
  rw [if_pos ⟨hlo, hhi⟩]

/-- The gas expression of the source without rounding: when the conversion of the gas
limit and its product by a finite multiplier `m * 2^e` are exact, and the ceiling of the
product is a `uint64`, the expression is the ceiling of the product of the gas limit by
the multiplier. -/
theorem escalatedGasLimit_binary64_exact (p : Platform) (c : Config Float64)
    (gasLimit : Nat) (neg : Bool) (m : Nat) (e : Int)
    (hmult : c.CompounderGasMultiplier = .finite neg m e)
    (hgas : gasLimit < 2 ^ 53) (hprod : gasLimit * m < 2 ^ 53)
    (he : -1074 ≤ e) (he2 : e ≤ 971)
    (hlo : 0 ≤ ⌈(gasLimit : ℚ) * c.CompounderGasMultiplier.toRat⌉)
    (hhi : ⌈(gasLimit : ℚ) * c.CompounderGasMultiplier.toRat⌉ < 2 ^ 64) :
    ((escalatedGasLimit (binary64 p) c gasLimit : Nat) : Int) =
      ⌈(gasLimit : ℚ) * c.CompounderGasMultiplier.toRat⌉ := by
  have h1 : Float64.ofUint64 gasLimit = .finite false gasLimit 0 :=
    round_exact _ _ 0 hgas (by norm_num) (by norm_num)
  have h2 : Float64.mul (.finite false gasLimit 0) (.finite neg m e) =
      .finite (xor false neg) (gasLimit * m) (0 + e) := by
    simp only [Float64.mul]
    exact round_exact _ _ _ hprod (by omega) (by omega)
  have h3 := truncate_ceil (xor false neg) (gasLimit * m) (0 + e)
  have h4 := toRat_signed_product (gasLimit : Int) neg m e
  simp only [Int.natAbs_ofNat, Int.cast_natCast] at h4
  have h5 : decide ((gasLimit : Int) < 0) = false := by simp
  rw [h5] at h4
  rw [h4] at h3
  rw [hmult] at hlo hhi ⊢
  simp only [escalatedGasLimit, binary64, hmult, h1, h2, Float64.toUint64, h3]
  rw [if_pos ⟨hlo, hhi⟩]
  exact Int.toNat_of_nonneg hlo

/-! ## The escalation controller -/

section Controller

variable {F : Type} (fl : Float64Ops F) (cfg : Config F)
  (send : Nat → SendMsgOptions → SendResult)

/-- An activation with fuel makes its call first. -/
theorem exec_head (fuel idx : Nat) (options : SendMsgOptions) (attempt : Int) :
    (executeMessage fl cfg send (fuel + 1) idx options attempt).calls[0]? =
      some (options, attempt) := by
  rcases exec_step fl cfg send fuel idx options attempt with ⟨r, hr⟩ | ⟨_, o2, hr⟩ <;>
    (rw [hr]; simp)

/-- C1. A run of `executeMessage` started with attempt 1 under a maximum of at least 1
returns as soon as the fuel reaches the maximum, and more fuel does not change it; it makes
at least one and at most `maxAttempts` calls of `SendMsg`; the call at position `i` is the
one of attempt `i + 1`, which is at most `maxAttempts`; and when the call of attempt
`maxAttempts` is rejected for insufficient fee or out of gas, it is the last call and the
run returns an error. `ClaimRewards` and `Compound` start their run in this way, with
attempt 1. -/
theorem executeMessage_terminates_within_max_attempts
    (options : SendMsgOptions) (fuel : Nat)
    (hmax : 1 ≤ cfg.CompounderGasMaxAttempts)
    (hfuel : cfg.CompounderGasMaxAttempts.toNat ≤ fuel) :
    (∃ r, (executeMessage fl cfg send fuel 0 options 1).ret = some r) ∧
    executeMessage fl cfg send fuel 0 options 1 =
      executeMessage fl cfg send cfg.CompounderGasMaxAttempts.toNat 0 options 1 ∧
    1 ≤ (executeMessage fl cfg send fuel 0 options 1).calls.length ∧
    ((executeMessage fl cfg send fuel 0 options 1).calls.length : Int) ≤
      cfg.CompounderGasMaxAttempts ∧
    (∀ (i : Nat) (o : SendMsgOptions) (a : Int),
      (executeMessage fl cfg send fuel 0 options 1).calls[i]? = some (o, a) →
      a = (i : Int) + 1 ∧ a ≤ cfg.CompounderGasMaxAttempts) ∧
    (∀ (i : Nat) (o : SendMsgOptions) (a : Int),
      (executeMessage fl cfg send fuel 0 options 1).calls[i]? = some (o, a) →
      a = cfg.CompounderGasMaxAttempts →
      RetryableRejection (send i o) →
      (executeMessage fl cfg send fuel 0 options 1).calls.length = i + 1 ∧
      ∃ height txHash text,
        (executeMessage fl cfg send fuel 0 options 1).ret =
          some (.ret height txHash (some text))) ∧
    (∀ compounder : CompounderState,
      (ClaimRewards fl cfg compounder send fuel).run =
        some (executeMessage fl cfg send fuel 0
          (optionsFor cfg compounder .claim_rewards) 1)) ∧
    (∀ (compounder : CompounderState) (env : CompoundEnv) (run : ExecRun),
      (Compound fl cfg compounder env fuel).run = some run →
      ∃ stakeMsgs, run = executeMessage fl cfg env.send fuel 0
        (optionsFor cfg compounder (.stake stakeMsgs)) 1) := by
  have hlt : (cfg.CompounderGasMaxAttempts - 1).toNat < fuel := by omega
  obtain ⟨hret, h1, hlen⟩ := exec_returns fl cfg send fuel 0 options 1 hlt
  refine ⟨hret, ?_, h1, by omega, ?_, ?_, fun _ => rfl, ?_⟩
  · exact exec_fuel_irrelevant fl cfg send fuel _ 0 options 1 hlt (by omega)
  · intro i o a h
    obtain ⟨ha, hb⟩ := exec_attempts fl cfg send fuel 0 options 1 i o a h
    refine ⟨by omega, ?_⟩
    rcases hb with hb | hb
    · subst hb; simp at ha; omega
    · exact hb
  · intro i o a h ha hrej
    have hrej2 : RetryableRejection (send (0 + i) o) := by simpa using hrej
    exact exec_last_attempt fl cfg send fuel 0 options 1 i o a h (by omega) hrej2
  · intro compounder env run hrun
    unfold Compound at hrun
    split at hrun
    · simp at hrun
    · split at hrun
      · simp at hrun
      · split at hrun
        · simp at hrun
        · split at hrun
          · simp at hrun
          · rename_i stakeMsgs _
            refine ⟨stakeMsgs, ?_⟩
            simp only [finishOperation, Option.some.injEq] at hrun
            exact hrun.symm

/-- C4. Whatever the attempt number, when `SendMsg` returns an error whose text does not
contain "insufficient fee", or returns without error a response with a non-zero code
whose raw log does not contain "out of gas", `executeMessage` makes that one call only
and returns height 0, an empty hash and an error whose text is the text of the `SendMsg`
error, respectively the raw log. -/
theorem executeMessage_unclassified_failure_terminal
    (fuel idx : Nat) (options : SendMsgOptions) (attempt : Int) (text : String)
    (h : (∃ resp, send idx options = (resp, some text) ∧
          stringsContains text "insufficient fee" = false) ∨
        (∃ txResp, send idx options = (some txResp, none) ∧ txResp.Code ≠ 0 ∧
          txResp.RawLog = text ∧ stringsContains text "out of gas" = false)) :
    executeMessage fl cfg send (fuel + 1) idx options attempt =
      { calls := [(options, attempt)], ret := some (.ret 0 "" (some text)) } := by
  rcases h with ⟨resp, hsend, hfee⟩ | ⟨txResp, hsend, hcode, rfl, hgas⟩
  · exact exec_err_terminal fl cfg send fuel idx options attempt resp text hsend (Or.inl hfee)
  · exact exec_code_terminal fl cfg send fuel idx options attempt txResp hsend hcode hgas

/-- C5, as amended. When `SendMsg` returns without error a response whose code is
non-zero and whose raw log contains "insufficient fee", `executeMessage` does not escalate
the fee: if the raw log does not contain "out of gas", it makes no further call and
returns height 0, an empty hash and the raw log as error, whatever the attempt number; if
the raw log contains "out of gas" too and the attempt is below the maximum, the next call
has the gas limit escalated and the same fee. -/
theorem executeMessage_execution_fee_failure_not_escalated
    (fuel idx : Nat) (options : SendMsgOptions) (attempt : Int) (txResp : TxResponse)
    (hsend : send idx options = (some txResp, none))
    (hcode : txResp.Code ≠ 0)
    (hfee : stringsContains txResp.RawLog "insufficient fee" = true) :
    (stringsContains txResp.RawLog "out of gas" = false →
      executeMessage fl cfg send (fuel + 1) idx options attempt =
        { calls := [(options, attempt)], ret := some (.ret 0 "" (some txResp.RawLog)) }) ∧
    (stringsContains txResp.RawLog "out of gas" = true →
      attempt < cfg.CompounderGasMaxAttempts →
      ∃ newOptions,
        (executeMessage fl cfg send (fuel + 2) idx options attempt).calls[1]? =
          some (newOptions, attempt + 1) ∧
        newOptions.Fee = options.Fee ∧
        newOptions.GasLimit = escalatedGasLimit fl cfg options.GasLimit) ∧
    (∀ newOptions a,
      (executeMessage fl cfg send (fuel + 2) idx options attempt).calls[1]? =
        some (newOptions, a) → newOptions.Fee = options.Fee) := by
  have _ := hfee
  refine ⟨fun hgas => exec_code_terminal fl cfg send fuel idx options attempt txResp hsend
    hcode hgas, fun hgas hatt => ?_, fun newOptions a hcall => ?_⟩
  · have hrun := exec_gas_retry fl cfg send (fuel + 1) idx options attempt txResp hsend
      hcode hgas hatt
    refine ⟨{ options with GasLimit := escalatedGasLimit fl cfg options.GasLimit }, ?_,
      rfl, rfl⟩
    rw [hrun]
    simp only [List.getElem?_cons_succ]
    exact exec_head fl cfg send fuel (idx + 1) _ (attempt + 1)
  · by_cases hgas : stringsContains txResp.RawLog "out of gas" = true
    · by_cases hatt : attempt < cfg.CompounderGasMaxAttempts
      · have hrun := exec_gas_retry fl cfg send (fuel + 1) idx options attempt txResp hsend
          hcode hgas hatt
        rw [hrun] at hcall
        simp only [List.getElem?_cons_succ] at hcall
        rw [exec_head fl cfg send fuel (idx + 1) _ (attempt + 1)] at hcall
        simp only [Option.some.injEq, Prod.mk.injEq] at hcall
        rw [← hcall.1]
      · rw [exec_gas_terminal fl cfg send (fuel + 1) idx options attempt txResp hsend hcode
          hgas (not_lt.mp hatt)] at hcall
        simp at hcall
    · rw [exec_code_terminal fl cfg send (fuel + 1) idx options attempt txResp hsend hcode
        (by simpa using hgas)] at hcall
      simp at hcall

end Controller

/-! ## Escalation in `float64` -/

/-- C2, as amended. When `SendMsg` fails with an error whose text contains "insufficient
fee" and the attempt is below the maximum, `executeMessage` makes the next `SendMsg` call,
with the next attempt number and with options that differ from the previous ones in the
fee only; the fee is `int64(math.Ceil(float64(fee) * multiplier))` computed in `float64`.
It is the ceiling of the product of the fee by the multiplier when nothing is rounded and
the ceiling is an `int64`: for a finite multiplier `m * 2^e` with `-1074 ≤ e ≤ 971`, a fee
below `2^53` in absolute value, and `|fee| * m < 2^53`. -/
theorem executeMessage_fee_escalation_float64 (p : Platform) (cfg : Config Float64)
    (send : Nat → SendMsgOptions → SendResult)
    (fuel idx : Nat) (options : SendMsgOptions) (attempt : Int)
    (resp : Option TxResponse) (text : String)
    (hatt : attempt < cfg.CompounderGasMaxAttempts)
    (hsend : send idx options = (resp, some text))
    (hfee : stringsContains text "insufficient fee" = true) :
    (executeMessage (binary64 p) cfg send (fuel + 2) idx options attempt).calls[0]? =
      some (options, attempt) ∧
    (executeMessage (binary64 p) cfg send (fuel + 2) idx options attempt).calls[1]? =
      some ({ options with
          Fee := Float64.toInt64 p (Float64.ceil
            (Float64.mul (Float64.ofInt64 options.Fee) cfg.CompounderGasMultiplier)) },
        attempt + 1) ∧
    (executeMessage (binary64 p) cfg send (fuel + 2) idx options attempt).calls =
      (options, attempt) :: (executeMessage (binary64 p) cfg send (fuel + 1) (idx + 1)
        { options with Fee := escalatedFee (binary64 p) cfg options.Fee }
        (attempt + 1)).calls ∧
    (executeMessage (binary64 p) cfg send (fuel + 2) idx options attempt).ret =
      (executeMessage (binary64 p) cfg send (fuel + 1) (idx + 1)
        { options with Fee := escalatedFee (binary64 p) cfg options.Fee }
        (attempt + 1)).ret ∧
    escalatedFee (binary64 p) cfg options.Fee =
      Float64.toInt64 p (Float64.ceil
        (Float64.mul (Float64.ofInt64 options.Fee) cfg.CompounderGasMultiplier)) ∧
    (∀ newOptions a,
      (executeMessage (binary64 p) cfg send (fuel + 2) idx options attempt).calls[1]? =
        some (newOptions, a) →
      newOptions.GasLimit = options.GasLimit ∧ newOptions.Messages = options.Messages ∧
      newOptions.SignerRecord = options.SignerRecord) ∧
    (∀ (neg : Bool) (m : Nat) (e : Int),
      cfg.CompounderGasMultiplier = .finite neg m e →
      options.Fee.natAbs < 2 ^ 53 → options.Fee.natAbs * m < 2 ^ 53 →
      -1074 ≤ e → e ≤ 971 →
      -2 ^ 63 ≤ ⌈(options.Fee : ℚ) * cfg.CompounderGasMultiplier.toRat⌉ →
      ⌈(options.Fee : ℚ) * cfg.CompounderGasMultiplier.toRat⌉ < 2 ^ 63 →
      escalatedFee (binary64 p) cfg options.Fee =
        ⌈(options.Fee : ℚ) * cfg.CompounderGasMultiplier.toRat⌉) := by
  have hrun := exec_fee_retry (binary64 p) cfg send (fuel + 1) idx options attempt resp text
    hsend hfee hatt
  have hsecond :
      (executeMessage (binary64 p) cfg send (fuel + 2) idx options attempt).calls[1]? =
        some ({ options with Fee := escalatedFee (binary64 p) cfg options.Fee },
          attempt + 1) := by
    rw [hrun]
    simp only [List.getElem?_cons_succ]
    exact exec_head (binary64 p) cfg send fuel (idx + 1) _ (attempt + 1)
  refine ⟨exec_head (binary64 p) cfg send (fuel + 1) idx options attempt, hsecond, ?_, ?_,
    rfl, ?_, ?_⟩
  · rw [hrun]
  · rw [hrun]
  · intro newOptions a hcall
    rw [hsecond] at hcall
    simp only [Option.some.injEq, Prod.mk.injEq] at hcall
    rw [← hcall.1]
    exact ⟨rfl, rfl, rfl⟩
  · intro neg m e hmult h1 h2 h3 h4 h5 h6
    exact escalatedFee_binary64_exact p cfg options.Fee neg m e hmult h1 h2 h3 h4 h5 h6

/-- C3, as amended. When `SendMsg` returns without error a response whose code is
non-zero and whose raw log contains "out of gas", and the attempt is below the maximum,
`executeMessage` makes the next `SendMsg` call, with the next attempt number and with
options that differ from the previous ones in the gas limit only; the gas limit is
`uint64(math.Ceil(float64(gasLimit) * multiplier))` computed in `float64`. It is the
ceiling of the product of the gas limit by the multiplier when nothing is rounded and the
ceiling is a `uint64`: for a finite multiplier `m * 2^e` with `-1074 ≤ e ≤ 971`, a gas
limit below `2^53`, and `gasLimit * m < 2^53`. -/
theorem executeMessage_gas_escalation_float64 (p : Platform) (cfg : Config Float64)
    (send : Nat → SendMsgOptions → SendResult)
    (fuel idx : Nat) (options : SendMsgOptions) (attempt : Int) (txResp : TxResponse)
    (hatt : attempt < cfg.CompounderGasMaxAttempts)
    (hsend : send idx options = (some txResp, none))
    (hcode : txResp.Code ≠ 0)
    (hgas : stringsContains txResp.RawLog "out of gas" = true) :
    (executeMessage (binary64 p) cfg send (fuel + 2) idx options attempt).calls[0]? =
      some (options, attempt) ∧
    (executeMessage (binary64 p) cfg send (fuel + 2) idx options attempt).calls[1]? =
      some ({ options with
          GasLimit := Float64.toUint64 p (Float64.ceil
            (Float64.mul (Float64.ofUint64 options.GasLimit) cfg.CompounderGasMultiplier)) },
        attempt + 1) ∧
    (executeMessage (binary64 p) cfg send (fuel + 2) idx options attempt).calls =
      (options, attempt) :: (executeMessage (binary64 p) cfg send (fuel + 1) (idx + 1)
        { options with GasLimit := escalatedGasLimit (binary64 p) cfg options.GasLimit }
        (attempt + 1)).calls ∧
    (executeMessage (binary64 p) cfg send (fuel + 2) idx options attempt).ret =
      (executeMessage (binary64 p) cfg send (fuel + 1) (idx + 1)
        { options with GasLimit := escalatedGasLimit (binary64 p) cfg options.GasLimit }
        (attempt + 1)).ret ∧
    escalatedGasLimit (binary64 p) cfg options.GasLimit =
      Float64.toUint64 p (Float64.ceil
        (Float64.mul (Float64.ofUint64 options.GasLimit) cfg.CompounderGasMultiplier)) ∧
    (∀ newOptions a,
      (executeMessage (binary64 p) cfg send (fuel + 2) idx options attempt).calls[1]? =
        some (newOptions, a) →
      newOptions.Fee = options.Fee ∧ newOptions.Messages = options.Messages ∧
      newOptions.SignerRecord = options.SignerRecord) ∧
    (∀ (neg : Bool) (m : Nat) (e : Int),
      cfg.CompounderGasMultiplier = .finite neg m e →
      options.GasLimit < 2 ^ 53 → options.GasLimit * m < 2 ^ 53 →
      -1074 ≤ e → e ≤ 971 →
      0 ≤ ⌈(options.GasLimit : ℚ) * cfg.CompounderGasMultiplier.toRat⌉ →
      ⌈(options.GasLimit : ℚ) * cfg.CompounderGasMultiplier.toRat⌉ < 2 ^ 64 →
      ((escalatedGasLimit (binary64 p) cfg options.GasLimit : Nat) : Int) =
        ⌈(options.GasLimit : ℚ) * cfg.CompounderGasMultiplier.toRat⌉) := by
  have hrun := exec_gas_retry (binary64 p) cfg send (fuel + 1) idx options attempt txResp
    hsend hcode hgas hatt
  have hsecond :
      (executeMessage (binary64 p) cfg send (fuel + 2) idx options attempt).calls[1]? =
        some ({ options with GasLimit := escalatedGasLimit (binary64 p) cfg options.GasLimit },
          attempt + 1) := by
    rw [hrun]
    simp only [List.getElem?_cons_succ]
    exact exec_head (binary64 p) cfg send fuel (idx + 1) _ (attempt + 1)
  refine ⟨exec_head (binary64 p) cfg send (fuel + 1) idx options attempt, hsecond, ?_, ?_,
    rfl, ?_, ?_⟩
  · rw [hrun]
  · rw [hrun]
  · intro newOptions a hcall
    rw [hsecond] at hcall
    simp only [Option.some.injEq, Prod.mk.injEq] at hcall
    rw [← hcall.1]
    exact ⟨rfl, rfl, rfl⟩
  · intro neg m e hmult h1 h2 h3 h4 h5 h6
    exact escalatedGasLimit_binary64_exact p cfg options.GasLimit neg m e hmult h1 h2 h3 h4
      h5 h6

/-- C2 fails as stated. After an insufficient-fee error at attempt 1 of 3: with the
multiplier 1.1 of `float64` and the fee 10 the next fee is 11, and the ceiling of the
product of 10 by that multiplier is 12; with the same multiplier and the fee 100 the next
fee is 111, and the ceiling of 100 times eleven tenths is 110, that multiplier being
within `2^-53` of eleven tenths; with the multiplier 1 and the fee `2^53 + 1` the next fee
is `2^53`. -/
theorem executeMessage_fee_escalation_counterexample :
    (1 : Int) < (sampleConfigWith float64ElevenTenths).CompounderGasMaxAttempts ∧
    stringsContains
      "insufficient fees; got: 5001unibi required: 25000unibi: insufficient fee"
      "insufficient fee" = true ∧
    (executeMessage sampleOps (sampleConfigWith float64ElevenTenths) underpriced 2 0
      { sampleOptions with Fee := 10 } 1).calls[1]? =
      some ({ sampleOptions with Fee := 11 }, 2) ∧
    ⌈(10 : ℚ) * float64ElevenTenths.toRat⌉ = 12 ∧
    (executeMessage sampleOps (sampleConfigWith float64ElevenTenths) underpriced 2 0
      { sampleOptions with Fee := 100 } 1).calls[1]? =
      some ({ sampleOptions with Fee := 111 }, 2) ∧
    ⌈(100 : ℚ) * (11 / 10)⌉ = 110 ∧
    |float64ElevenTenths.toRat - 11 / 10| < 1 / 2 ^ 53 ∧
    (executeMessage sampleOps (sampleConfigWith float64One) underpriced 2 0
      { sampleOptions with Fee := 2 ^ 53 + 1 } 1).calls[1]? =
      some ({ sampleOptions with Fee := 2 ^ 53 }, 2) ∧
    ⌈((2 ^ 53 + 1 : Int) : ℚ) * float64One.toRat⌉ = 2 ^ 53 + 1 := by
  refine ⟨by decide, by decide, by decide, ?_, by decide, ?_, ?_, by decide, ?_⟩
  · rw [Int.ceil_eq_iff]
    norm_num [Float64.toRat, float64ElevenTenths]
  · rw [Int.ceil_eq_iff]
    norm_num
  · rw [abs_lt]
    norm_num [Float64.toRat, float64ElevenTenths]
  · rw [Int.ceil_eq_iff]
    norm_num [Float64.toRat, float64One]

/-- C2 as amended, at a concrete input: fee 5001 and multiplier 1.5 give the fee 7502 on
the second call, which is the ceiling of 7501.5. -/
theorem executeMessage_fee_escalation_float64_witness :
    (1 : Int) < sampleConfig.CompounderGasMaxAttempts ∧
    stringsContains
      "insufficient fees; got: 5001unibi required: 25000unibi: insufficient fee"
      "insufficient fee" = true ∧
    (executeMessage (binary64 samplePlatform) sampleConfig underpriced 2 0 sampleOptions
      1).calls[1]? = some ({ sampleOptions with Fee := 7502 }, 2) ∧
    ⌈(sampleOptions.Fee : ℚ) * sampleConfig.CompounderGasMultiplier.toRat⌉ = 7502 ∧
    escalatedFee (binary64 samplePlatform) sampleConfig sampleOptions.Fee = 7502 := by
  have h := executeMessage_fee_escalation_float64 samplePlatform sampleConfig underpriced 0 0
    sampleOptions 1 none
    "insufficient fees; got: 5001unibi required: 25000unibi: insufficient fee"
    (by decide) rfl (by decide)
  have hc : ⌈(sampleOptions.Fee : ℚ) * sampleConfig.CompounderGasMultiplier.toRat⌉ = 7502 := by
    rw [Int.ceil_eq_iff]
    norm_num [Float64.toRat, float64Three_halves, sampleConfig, sampleOptions, optionsFor]
  have hexact := h.2.2.2.2.2.2 false 3 (-1) rfl (by decide) (by decide) (by norm_num)
    (by norm_num) (by rw [hc]; norm_num) (by rw [hc]; norm_num)
  refine ⟨by decide, by decide, h.2.1, hc, ?_⟩
  rw [hexact, hc]

/-- C3 fails as stated. After an out-of-gas response at attempt 1 of 3: with the
multiplier 1.1 of `float64` and the gas limit 10 the next gas limit is 11, and the ceiling
of the product of 10 by that multiplier is 12; with the same multiplier and the gas limit
200000 the next gas limit is 220001, and the ceiling of 200000 times eleven tenths is
220000, that multiplier being within `2^-53` of eleven tenths; with the multiplier 1 and
the gas limit `2^53 + 1` the next gas limit is `2^53`. -/
theorem executeMessage_gas_escalation_counterexample :
    (1 : Int) < (sampleConfigWith float64ElevenTenths).CompounderGasMaxAttempts ∧
    outOfGasResponse.Code ≠ 0 ∧
    stringsContains outOfGasResponse.RawLog "out of gas" = true ∧
    (executeMessage sampleOps (sampleConfigWith float64ElevenTenths) starved 2 0
      { sampleOptions with GasLimit := 10 } 1).calls[1]? =
      some ({ sampleOptions with GasLimit := 11 }, 2) ∧
    ⌈(10 : ℚ) * float64ElevenTenths.toRat⌉ = 12 ∧
    (executeMessage sampleOps (sampleConfigWith float64ElevenTenths) starved 2 0
      { sampleOptions with GasLimit := 200000 } 1).calls[1]? =
      some ({ sampleOptions with GasLimit := 220001 }, 2) ∧
    ⌈(200000 : ℚ) * (11 / 10)⌉ = 220000 ∧
    |float64ElevenTenths.toRat - 11 / 10| < 1 / 2 ^ 53 ∧
    (executeMessage sampleOps (sampleConfigWith float64One) starved 2 0
      { sampleOptions with GasLimit := 2 ^ 53 + 1 } 1).calls[1]? =
      some ({ sampleOptions with GasLimit := 2 ^ 53 }, 2) ∧
    ⌈((2 ^ 53 + 1 : Nat) : ℚ) * float64One.toRat⌉ = 2 ^ 53 + 1 := by
  refine ⟨by decide, by decide, by decide, by decide, ?_, by decide, ?_, ?_, by decide, ?_⟩
  · rw [Int.ceil_eq_iff]
    norm_num [Float64.toRat, float64ElevenTenths]
  · rw [Int.ceil_eq_iff]
    norm_num
  · rw [abs_lt]
    norm_num [Float64.toRat, float64ElevenTenths]
  · rw [Int.ceil_eq_iff]
    norm_num [Float64.toRat, float64One]

/-- C3 as amended, at a concrete input: gas limit 200000 and multiplier 1.5 give the gas
limit 300000 on the second call, which is the product. -/
theorem executeMessage_gas_escalation_float64_witness :
    (1 : Int) < sampleConfig.CompounderGasMaxAttempts ∧
    outOfGasResponse.Code ≠ 0 ∧
    stringsContains outOfGasResponse.RawLog "out of gas" = true ∧
    (executeMessage (binary64 samplePlatform) sampleConfig starved 2 0 sampleOptions
      1).calls[1]? = some ({ sampleOptions with GasLimit := 300000 }, 2) ∧
    ⌈(sampleOptions.GasLimit : ℚ) * sampleConfig.CompounderGasMultiplier.toRat⌉ = 300000 ∧
    ((escalatedGasLimit (binary64 samplePlatform) sampleConfig sampleOptions.GasLimit : Nat) :
      Int) = 300000 := by
  have h := executeMessage_gas_escalation_float64 samplePlatform sampleConfig starved 0 0
    sampleOptions 1 outOfGasResponse (by decide) rfl (by decide) (by decide)
  have hc : ⌈(sampleOptions.GasLimit : ℚ) * sampleConfig.CompounderGasMultiplier.toRat⌉ =
      300000 := by
    rw [Int.ceil_eq_iff]
    norm_num [Float64.toRat, float64Three_halves, sampleConfig, sampleOptions, optionsFor]
  have hexact := h.2.2.2.2.2.2 false 3 (-1) rfl (by decide) (by decide) (by norm_num)
    (by norm_num) (by rw [hc]; norm_num) (by rw [hc]; norm_num)
  refine ⟨by decide, by decide, by decide, h.2.1, hc, ?_⟩
  rw [hexact, hc]

/-- A product that leaves the range of the integer type: the fee `2^62` with the
multiplier 4, and the gas limit `2^64 - 1` with the multiplier 1, which the conversion to
`float64` rounds to `2^64`. Both products are `2^52 * 2^12`, and the value passed on is
the one of the platform. -/
theorem escalation_unrepresentable (p : Platform) :
    escalatedFee (binary64 p) (sampleConfigWith (.finite false 4 0)) (2 ^ 62) =
      p.int64OfUnrepresentable (.finite false (2 ^ 52) 12) ∧
    escalatedGasLimit (binary64 p) (sampleConfigWith float64One) (2 ^ 64 - 1) =
      p.uint64OfUnrepresentable (.finite false (2 ^ 52) 12) := by
  constructor
  · have h : (Float64.ceil (Float64.mul (Float64.ofInt64 (2 ^ 62)) (.finite false 4 0))) =
        .finite false (2 ^ 52) 12 := by decide
    simp only [escalatedFee, binary64, sampleConfigWith, h, Float64.toInt64]
    rfl
  · have h : (Float64.ceil (Float64.mul (Float64.ofUint64 (2 ^ 64 - 1)) float64One)) =
        .finite false (2 ^ 52) 12 := by decide
    simp only [escalatedGasLimit, binary64, sampleConfigWith, h, Float64.toUint64]
    rfl

/-- C1, at a concrete input: three attempts, a node that always answers
"insufficient fee". -/
theorem executeMessage_terminates_within_max_attempts_witness :
    (1 : Int) ≤ sampleConfig.CompounderGasMaxAttempts ∧
    sampleConfig.CompounderGasMaxAttempts.toNat ≤ 3 ∧
    ((executeMessage sampleOps sampleConfig underpriced 3 0 sampleOptions 1).calls.length :
      Int) ≤ sampleConfig.CompounderGasMaxAttempts :=
  ⟨by decide, by decide,
    (executeMessage_terminates_within_max_attempts sampleOps sampleConfig underpriced
      sampleOptions 3 (by decide) (by decide)).2.2.2.1⟩

/-- C4, at a concrete input: a broadcast refused for an unclassified reason. -/
theorem executeMessage_unclassified_failure_terminal_witness :
    stringsContains "signature verification failed; unauthorized" "insufficient fee" =
      false ∧
    executeMessage sampleOps sampleConfig unauthorized 1 0 sampleOptions 1 =
      { calls := [(sampleOptions, 1)],
        ret := some (.ret 0 "" (some "signature verification failed; unauthorized")) } :=
  ⟨by decide,
    executeMessage_unclassified_failure_terminal sampleOps sampleConfig unauthorized 0 0
      sampleOptions 1 "signature verification failed; unauthorized"
      (Or.inl ⟨none, rfl, by decide⟩)⟩

/-- C5 fails as stated: with three attempts allowed, the first attempt answered without
error by a response of code 13 whose raw log contains "insufficient fee" ends the run
after that one call, with a terminal failure. -/
theorem executeMessage_execution_fee_failure_counterexample :
    (1 : Int) < sampleConfig.CompounderGasMaxAttempts ∧
    underpricedOnExecution 0 sampleOptions = (some underpricedResponse, none) ∧
    underpricedResponse.Code ≠ 0 ∧
    stringsContains underpricedResponse.RawLog "insufficient fee" = true ∧
    executeMessage sampleOps sampleConfig underpricedOnExecution 3 0 sampleOptions 1 =
      { calls := [(sampleOptions, 1)],
        ret := some (.ret 0 "" (some underpricedResponse.RawLog)) } ∧
    (executeMessage sampleOps sampleConfig underpricedOnExecution 3 0 sampleOptions 1).calls[1]?
      = none := by
  decide

/-- C5 as amended, at a concrete input. -/
theorem executeMessage_execution_fee_failure_not_escalated_witness :
    underpricedResponse.Code ≠ 0 ∧
    stringsContains underpricedResponse.RawLog "insufficient fee" = true ∧
    stringsContains underpricedResponse.RawLog "out of gas" = false ∧
    executeMessage sampleOps sampleConfig underpricedOnExecution 1 0 sampleOptions 1 =
      { calls := [(sampleOptions, 1)],
        ret := some (.ret 0 "" (some underpricedResponse.RawLog)) } :=
  ⟨by decide, by decide, by decide,
    (executeMessage_execution_fee_failure_not_escalated sampleOps sampleConfig
      underpricedOnExecution 0 0 sampleOptions 1 underpricedResponse rfl (by decide)
      (by decide)).1 (by decide)⟩

/-! ## Broadcast and confirm -/

/-- Polls that carry no result are passed over, each counted. -/
theorem confirmLoop_skip : ∀ (pre : List PollResult) (rest : List SelectEvent) (polls : Nat),
    (∀ q ∈ pre, q.result = none) →
    confirmLoop (pre.map SelectEvent.tick ++ rest) polls =
      confirmLoop rest (polls + pre.length) := by
  intro pre
  induction pre with
  | nil => intro rest polls _; simp
  | cons q pre ih =>
    intro rest polls h
    have hq : q.result = none := h q (List.mem_cons_self _ _)
    have hpre : ∀ x ∈ pre, x.result = none := fun x hx => h x (List.mem_cons_of_mem _ hx)
    have hstep : confirmLoop (SelectEvent.tick q :: (pre.map SelectEvent.tick ++ rest)) polls =
        confirmLoop (pre.map SelectEvent.tick ++ rest) (polls + 1) := by
      rcases q with ⟨resp, err⟩
      cases resp with
      | none => simp [confirmLoop]
      | some r =>
        rcases r with ⟨t⟩
        cases t with
        | none => simp [confirmLoop]
        | some t => simp [PollResult.result] at hq
    simp only [List.map_cons, List.cons_append, List.length_cons]
    rw [hstep, ih rest (polls + 1) hpre]
    congr 1
    omega

/-- The first poll that carries a result ends the loop with that result. -/
theorem confirmLoop_found (p : PollResult) (t : TxResponse) (rest : List SelectEvent)
    (polls : Nat) (hp : p.result = some t) :
    confirmLoop (SelectEvent.tick p :: rest) polls =
      { broadcasts := 1, polls := polls + 1, outcome := .returned (some t) none } := by
  rcases p with ⟨resp, err⟩
  cases resp with
  | none => simp [PollResult.result] at hp
  | some r =>
    rcases r with ⟨t2⟩
    cases t2 with
    | none => simp [PollResult.result] at hp
    | some t2 =>
      simp only [PollResult.result, Option.some.injEq] at hp
      subst hp
      simp [confirmLoop]

/-- Once signing has succeeded and the broadcast is accepted, `SendMsg` is its loop. -/
theorem SendMsg_accepted (env : SendEnv) (options : SendMsgOptions) (txBytes : List Nat)
    (accepted : TxResponse)
    (hbuild : env.build options = .signed txBytes)
    (hbroadcast : env.broadcast txBytes = .ok (some accepted))
    (hcode : accepted.Code = 0) :
    SendMsg env options = confirmLoop env.events 0 := by
  simp [SendMsg, hbuild, hbroadcast, hcode]

/-- C6. Once the broadcast is accepted: when the wake-ups of the loop are polls without a
result (failed or empty), then a poll that carries a result, `SendMsg` returns that
result without error, whatever its code, having made exactly those polls, whatever
wake-ups would follow; when they are polls without a result and then the timeout,
`SendMsg` returns a nil response and the timeout error, having made exactly those polls;
in particular a result with code 0 carried by the third poll is returned after exactly
three polls. -/
theorem SendMsg_confirm_phase (env : SendEnv) (options : SendMsgOptions)
    (txBytes : List Nat) (accepted : TxResponse)
    (hbuild : env.build options = .signed txBytes)
    (hbroadcast : env.broadcast txBytes = .ok (some accepted))
    (hcode : accepted.Code = 0) :
    (∀ (pre : List PollResult) (p : PollResult) (t : TxResponse) (rest : List SelectEvent),
      env.events = pre.map SelectEvent.tick ++ SelectEvent.tick p :: rest →
      (∀ q ∈ pre, q.result = none) → p.result = some t →
      SendMsg env options =
        { broadcasts := 1, polls := pre.length + 1, outcome := .returned (some t) none }) ∧
    (∀ (pre : List PollResult) (rest : List SelectEvent),
      env.events = pre.map SelectEvent.tick ++ SelectEvent.timeout :: rest →
      (∀ q ∈ pre, q.result = none) →
      SendMsg env options =
        { broadcasts := 1, polls := pre.length,
          outcome := .returned none (some "create transaction timeout error") }) ∧
    (∀ (p1 p2 p3 : PollResult) (t : TxResponse) (rest : List SelectEvent),
      env.events = SelectEvent.tick p1 :: SelectEvent.tick p2 :: SelectEvent.tick p3 :: rest →
      p1.result = none → p2.result = none → p3.result = some t → t.Code = 0 →
      SendMsg env options =
        { broadcasts := 1, polls := 3, outcome := .returned (some t) none }) := by
  have hloop := SendMsg_accepted env options txBytes accepted hbuild hbroadcast hcode
  have hfound : ∀ (pre : List PollResult) (p : PollResult) (t : TxResponse)
      (rest : List SelectEvent),
      env.events = pre.map SelectEvent.tick ++ SelectEvent.tick p :: rest →
      (∀ q ∈ pre, q.result = none) → p.result = some t →
      SendMsg env options =
        { broadcasts := 1, polls := pre.length + 1, outcome := .returned (some t) none } := by
    intro pre p t rest hev hpre hp
    rw [hloop, hev, confirmLoop_skip pre _ 0 hpre, confirmLoop_found p t rest _ hp]
    simp
  refine ⟨hfound, ?_, ?_⟩
  · intro pre rest hev hpre
    rw [hloop, hev, confirmLoop_skip pre _ 0 hpre]
    simp [confirmLoop]
  · intro p1 p2 p3 t rest hev h1 h2 h3 _
    have h := hfound [p1, p2] p3 t rest (by simpa using hev)
      (by intro q hq; simp at hq; rcases hq with rfl | rfl <;> assumption) h3
    simpa using h

/-- C6, at a concrete input: two polls that do not find the transaction, a third that
finds it with code 0; a fourth wake-up is listed and not taken. -/
theorem SendMsg_confirm_phase_witness :
    acceptedResponse.Code = 0 ∧
    SendMsg
      (sampleSendEnv (.ok (some acceptedResponse))
        [.tick notFound, .tick notFound, .tick (found successResponse), .timeout])
      sampleOptions =
      { broadcasts := 1, polls := 3, outcome := .returned (some successResponse) none } :=
  ⟨by decide,
    (SendMsg_confirm_phase
      (sampleSendEnv (.ok (some acceptedResponse))
        [.tick notFound, .tick notFound, .tick (found successResponse), .timeout])
      sampleOptions [10, 20, 30] acceptedResponse rfl rfl (by decide)).2.2
      notFound notFound (found successResponse) successResponse [.timeout] rfl rfl rfl rfl
      (by decide)⟩

/-- C7. Once the transaction is signed: when the broadcast call fails, `SendMsg` returns a
nil response and that error; when its response has a non-zero code, `SendMsg` returns a
nil response and an error whose text is the raw log of the response; in both cases after
one broadcast and no poll, whatever the wake-ups of the loop would be. -/
theorem SendMsg_broadcast_rejection (env : SendEnv) (options : SendMsgOptions)
    (txBytes : List Nat) (hbuild : env.build options = .signed txBytes) :
    (∀ err, env.broadcast txBytes = .error err →
      SendMsg env options =
        { broadcasts := 1, polls := 0, outcome := .returned none (some err) }) ∧
    (∀ rejected, env.broadcast txBytes = .ok (some rejected) → rejected.Code ≠ 0 →
      SendMsg env options =
        { broadcasts := 1, polls := 0,
          outcome := .returned none (some rejected.RawLog) }) := by
  constructor
  · intro err hb
    simp [SendMsg, hbuild, hb]
  · intro rejected hb hcode
    simp [SendMsg, hbuild, hb, hcode]

/-- C7, at a concrete input: a broadcast refused with code 13, with a result waiting to be
polled. -/
theorem SendMsg_broadcast_rejection_witness :
    underpricedResponse.Code ≠ 0 ∧
    SendMsg
      (sampleSendEnv (.ok (some underpricedResponse)) [.tick (found successResponse)])
      sampleOptions =
      { broadcasts := 1, polls := 0,
        outcome := .returned none (some underpricedResponse.RawLog) } :=
  ⟨by decide,
    (SendMsg_broadcast_rejection
      (sampleSendEnv (.ok (some underpricedResponse)) [.tick (found successResponse)])
      sampleOptions [10, 20, 30] rfl).2 underpricedResponse rfl (by decide)⟩

/-! ## The tabular source and the balance check of `Compound` -/

/-- Over two-field rows the loop appends, in order, the stake message of every row whose
weight parses. -/
theorem stakeLoop_two_field_rows : ∀ (rows : List (List String)) (acc : List StakeMsg),
    (∀ r ∈ rows, r.length = 2) →
    stakeLoop rows acc = some (acc ++ rows.filterMap stakeMsgOfRow) := by
  intro rows
  induction rows with
  | nil => intro acc _; simp [stakeLoop]
  | cons r rows ih =>
    intro acc h
    have hr : r.length = 2 := h r (List.mem_cons_self _ _)
    have hrows : ∀ x ∈ rows, x.length = 2 := fun x hx => h x (List.mem_cons_of_mem _ hx)
    obtain ⟨validator, weight, rfl⟩ := List.length_eq_two.mp hr
    cases hw : ParseUint weight with
    | none => simp [stakeLoop, stakeMsgOfRow, hw, ih acc hrows]
    | some share => simp [stakeLoop, stakeMsgOfRow, hw, ih _ hrows]

/-- The loop ends without a panic exactly when every row has at least two fields. -/
theorem stakeLoop_isSome_iff : ∀ (rows : List (List String)) (acc : List StakeMsg),
    (stakeLoop rows acc).isSome = true ↔ ∀ r ∈ rows, 2 ≤ r.length := by
  intro rows
  induction rows with
  | nil => intro acc; simp [stakeLoop]
  | cons r rows ih =>
    intro acc
    rcases r with _ | ⟨validator, _ | ⟨weight, tl⟩⟩
    · simp [stakeLoop]
    · simp [stakeLoop]
    · cases hw : ParseUint weight with
      | none => simp [stakeLoop, hw, ih acc]
      | some share => simp [stakeLoop, hw, ih _]

/-- `Compound` past its checks: with a balance that passes, a file that opens and records
that parse, it runs `executeMessage` with attempt 1 on the stake call. -/
theorem Compound_reaches_execute {F : Type} (fl : Float64Ops F) (cfg : Config F)
    (compounder : CompounderState) (env : CompoundEnv) (fuel : Nat)
    (records : List (List String)) (stakeMsgs : List StakeMsg)
    (hbalance : ¬ stakeAmount env.balance < 0) (hopen : env.openErr = none)
    (hread : env.readAll = .ok records) (hparse : parseStakeMsgs records = some stakeMsgs) :
    (Compound fl cfg compounder env fuel).run =
      some (executeMessage fl cfg env.send fuel 0
        (optionsFor cfg compounder (.stake stakeMsgs)) 1) := by
  simp [Compound, hbalance, hopen, hread, hparse, finishOperation]

/-- A row whose share does not parse is logged and left out: `Compound` on the rows
`(val1,10)`, `(val2,ten)`, `(val3,5)` logs one parsing error and sends the two others. -/
theorem Compound_logs_skipped_row :
    (Compound sampleOps sampleConfig sampleCompounder
      (sampleCompoundEnv 5000000
        [["validator", "weight"], ["val1", "10"], ["val2", "ten"], ["val3", "5"]]) 3).errors =
      ["Error parsing share from CSV"] ∧
    (Compound sampleOps sampleConfig sampleCompounder
      (sampleCompoundEnv 5000000
        [["validator", "weight"], ["val1", "10"], ["val2", "ten"], ["val3", "5"]]) 3).calls =
      [(optionsFor sampleConfig sampleCompounder
        (.stake [{ Share := 10, Validator := "val1" }, { Share := 5, Validator := "val3" }]),
        1)] := by
  decide

/-- C8. For CSV records made of a header row and two-field rows, the stake messages that
`Compound` builds are, in file order, the rows whose second field parses as an unsigned
base-10 64-bit integer, each as `{Validator: first field, Share: parsed value}`; a row
whose weight does not parse is left out, and the result is the one of the file without
that row; these are the `stake_msgs` of the message `Compound` passes to its first
`SendMsg` call; and the header `validator,weight` with the rows `(val1,10)`, `(val2,5)`
gives `[{val1,10},{val2,5}]`. -/
theorem Compound_stake_msgs_of_csv (header : List String) (rows : List (List String))
    (hrows : ∀ r ∈ rows, r.length = 2) :
    parseStakeMsgs (header :: rows) = some (rows.filterMap stakeMsgOfRow) ∧
    (∀ (pre post : List (List String)) (validator weight : String),
      rows = pre ++ [validator, weight] :: post → ParseUint weight = none →
      parseStakeMsgs (header :: rows) = parseStakeMsgs (header :: (pre ++ post)) ∧
      parseStakeMsgs (header :: rows) =
        some (pre.filterMap stakeMsgOfRow ++ post.filterMap stakeMsgOfRow)) ∧
    (∀ {F : Type} (fl : Float64Ops F) (cfg : Config F) (compounder : CompounderState)
      (env : CompoundEnv) (fuel : Nat),
      ¬ stakeAmount env.balance < 0 → env.openErr = none →
      env.readAll = .ok (header :: rows) →
      (Compound fl cfg compounder env (fuel + 1)).calls[0]? =
        some (optionsFor cfg compounder (.stake (rows.filterMap stakeMsgOfRow)), 1)) ∧
    parseStakeMsgs [["validator", "weight"], ["val1", "10"], ["val2", "5"]] =
      some [{ Share := 10, Validator := "val1" }, { Share := 5, Validator := "val2" }] := by
  have hmain : parseStakeMsgs (header :: rows) = some (rows.filterMap stakeMsgOfRow) := by
    simp [parseStakeMsgs, stakeLoop_two_field_rows rows [] hrows]
  refine ⟨hmain, ?_, ?_, by decide⟩
  · intro pre post validator weight hsplit hw
    have hpre : ∀ r ∈ pre ++ post, r.length = 2 := by
      intro r hr
      apply hrows r
      rw [hsplit]
      rcases List.mem_append.mp hr with h | h
      · exact List.mem_append.mpr (Or.inl h)
      · exact List.mem_append.mpr (Or.inr (List.mem_cons_of_mem _ h))
    have hbad : stakeMsgOfRow [validator, weight] = none := by simp [stakeMsgOfRow, hw]
    have hsome : parseStakeMsgs (header :: rows) =
        some (pre.filterMap stakeMsgOfRow ++ post.filterMap stakeMsgOfRow) := by
      rw [hmain, hsplit, List.filterMap_append, List.filterMap_cons, hbad]
    refine ⟨?_, hsome⟩
    rw [hsome]
    simp [parseStakeMsgs, stakeLoop_two_field_rows (pre ++ post) [] hpre]
  · intro F fl cfg compounder env fuel hbalance hopen hread
    simp only [OperationRun.calls, Compound_reaches_execute fl cfg compounder env (fuel + 1)
      (header :: rows) _ hbalance hopen hread hmain]
    exact exec_head fl cfg env.send fuel 0 _ 1

/-- C8, at a concrete input: a file whose second row has a weight that does not parse. -/
theorem Compound_stake_msgs_of_csv_witness :
    (∀ r ∈ [["val1", "10"], ["val2", "ten"], ["val3", "5"]], r.length = 2) ∧
    parseStakeMsgs
      [["validator", "weight"], ["val1", "10"], ["val2", "ten"], ["val3", "5"]] =
      some (([["val1", "10"], ["val2", "ten"], ["val3", "5"]] : List (List String)).filterMap
        stakeMsgOfRow) ∧
    ([["val1", "10"], ["val2", "ten"], ["val3", "5"]] : List (List String)).filterMap
        stakeMsgOfRow =
      [{ Share := 10, Validator := "val1" }, { Share := 5, Validator := "val3" }] :=
  ⟨by decide,
    (Compound_stake_msgs_of_csv ["validator", "weight"]
      [["val1", "10"], ["val2", "ten"], ["val3", "5"]] (by decide)).1,
    by decide⟩

/-- C9 on the code: the amount `Compound` computes is the `unibi` balance minus 1, not
minus 1000000. With a balance of 1000000 it is 999999, not 0; with a balance of 5 it is 4,
which is not negative, so that `Compound` logs no insufficient balance and issues a
transaction, where the balance less 1000000 is negative; `Compound` stops for
insufficient balance, without a transaction, exactly when the balance less 1 is
negative. -/
theorem Compound_reserves_one_unibi :
    (∀ unibi : Int, stakeAmount [("unibi", unibi)] = unibi - 1) ∧
    stakeAmount [("unibi", 1000000)] = 999999 ∧
    stakeAmount [("unibi", 5)] = 4 ∧
    (5 : Int) - 1000000 < 0 ∧
    (Compound sampleOps sampleConfig sampleCompounder
      (sampleCompoundEnv 5 [["validator", "weight"], ["val1", "10"]]) 3).errors = [] ∧
    (Compound sampleOps sampleConfig sampleCompounder
      (sampleCompoundEnv 5 [["validator", "weight"], ["val1", "10"]]) 3).calls.length = 1 ∧
    (∀ {F : Type} (fl : Float64Ops F) (cfg : Config F) (compounder : CompounderState)
      (env : CompoundEnv) (fuel : Nat),
      AmountOf env.balance "unibi" - 1 < 0 →
      Compound fl cfg compounder env fuel =
        { errors := ["Insufficient balance to stake"], panicked := false, run := none }) := by
  refine ⟨?_, by decide, by decide, by decide, by decide, by decide, ?_⟩
  · intro unibi
    simp [stakeAmount, AmountOf]
  · intro F fl cfg compounder env fuel h
    have h2 : stakeAmount env.balance < 0 := h
    simp [Compound, h2]

/-- C10 on the code: the slice expression and the index expressions of the CSV loop stay
in bounds exactly when the record list is not empty and every row after the header has at
least two fields. The records of an empty file, and those of a single-column file with a
row after its header, make them panic, and `Compound` with them. -/
theorem Compound_csv_index_panic :
    (∀ records : List (List String),
      (parseStakeMsgs records).isSome = true ↔
        records ≠ [] ∧ ∀ r ∈ records.tail, 2 ≤ r.length) ∧
    parseStakeMsgs [] = none ∧
    parseStakeMsgs [["validator"], ["val1"]] = none ∧
    Compound sampleOps sampleConfig sampleCompounder (sampleCompoundEnv 5000000 []) 3 =
      { errors := [], panicked := true, run := none } ∧
    Compound sampleOps sampleConfig sampleCompounder
        (sampleCompoundEnv 5000000 [["validator"], ["val1"]]) 3 =
      { errors := [], panicked := true, run := none } := by
  refine ⟨?_, by decide, by decide, by decide, by decide⟩
  intro records
  cases records with
  | nil => simp [parseStakeMsgs]
  | cons header rows => simp [parseStakeMsgs, stakeLoop_isSome_iff rows []]

end Compounder
